import Mathlib

/-!
# Verification of the `journey_binder` record substrate

A shallow embedding of `src/content/joe/model/base.py` (`JourneyObject`):
the type-signature resolver (`decompose_type`), the value-coercion engine
(`deserialize_simple_var` / `deserialize_var`), record construction
(dataclass `__init__` + `__post_init__`), the validator dispatcher
(`validate`), the encoder (`to_json` / `JourneyObjectFieldSerializer`),
the equality oracle (`__eq__`) and the graph consolidator
(`consolidate_family_tree` / `joe_children`), together with the concrete
record types the theorems exercise (`Company`, `Mission`, `Orbit`,
`Attitude`, `PropagationResult` from the `joe.model` schema modules).

Modelling conventions:
* Python values are the inductive `PyVal`.  A `datetime` is represented by
  its ISO-8601 text (`datetime.fromisoformat` / `isoformat` are mutually
  inverse on the canonical strings used throughout the repository, so the
  wrapper is faithful on every path a theorem takes).  A `float` is
  represented by the rational it denotes: the engine never performs float
  arithmetic, only identity, casts and order comparisons against small
  decimal literals, and on those the rational order agrees with IEEE-754
  order.
* A record instance (`JoeObj`) carries `pyid`, the CPython object identity
  (`id(obj)`): two model values are the same Python object iff they are
  equal as `JoeObj` values including `pyid`.
* Exceptions are the inductive `JErr`; each constructor corresponds to one
  `raise` site and carries the structured arguments that the Python code
  interpolates into its message.
-/

/-- The container shapes `decompose_type` can report (its `origin` results
`list` / `tuple` / `dict`). -/
inductive Container where
  | list
  | tuple
  | dict
deriving DecidableEq, Repr

/-- Python type expressions as they occur in field annotations of the
repository: primitives, bare containers, `datetime`, `Enum` classes
(name plus declared values), `JourneyObject` subclasses (by name),
`NoneType`, parameterized containers and unions. -/
inductive PyType where
  | bool
  | int
  | float
  | str
  | datetime
  | noneT
  | list0
  | tuple0
  | dict0
  | enum (ename : String) (values : List String)
  | joeClass (cname : String)
  | listOf (t : PyType)
  | tupleOf (ts : List PyType)
  | dictOf (k v : PyType)
  | union (ts : List PyType)

mutual
/-- Python runtime values flowing through the coercion engine. -/
inductive PyVal where
  | none
  | bool (b : Bool)
  | int (n : Int)
  | float (q : Rat)
  | str (s : String)
  | list (xs : List PyVal)
  | tuple (xs : List PyVal)
  | dict (kvs : List (PyVal × PyVal))
  | datetime (iso : String)
  | enumMember (ename : String) (value : String)
  | joe (o : JoeObj)

/-- A constructed `JourneyObject` instance: CPython identity, class name,
and the attribute map in dataclass field order. -/
inductive JoeObj where
  | mk (pyid : Nat) (cls : String) (fields : List (String × PyVal))
end

namespace JoeObj

def pyid : JoeObj → Nat
  | .mk p _ _ => p

def cls : JoeObj → String
  | .mk _ c _ => c

def fields : JoeObj → List (String × PyVal)
  | .mk _ _ fs => fs

@[simp] theorem pyid_mk (p c fs) : (JoeObj.mk p c fs).pyid = p := rfl
@[simp] theorem cls_mk (p c fs) : (JoeObj.mk p c fs).cls = c := rfl
@[simp] theorem fields_mk (p c fs) : (JoeObj.mk p c fs).fields = fs := rfl

end JoeObj

mutual
/-- Structural (Boolean) equality on `PyVal`, used to give the model
decidable equality. -/
def PyVal.beq : PyVal → PyVal → Bool
  | .none, b => match b with | .none => true | _ => false
  | .bool a, b => match b with | .bool a' => a == a' | _ => false
  | .int a, b => match b with | .int a' => a == a' | _ => false
  | .float a, b => match b with | .float a' => a == a' | _ => false
  | .str a, b => match b with | .str a' => a == a' | _ => false
  | .list as, b => match b with | .list bs => PyVal.beqList as bs | _ => false
  | .tuple as, b => match b with | .tuple bs => PyVal.beqList as bs | _ => false
  | .dict as, b => match b with | .dict bs => PyVal.beqKVs as bs | _ => false
  | .datetime a, b => match b with | .datetime a' => a == a' | _ => false
  | .enumMember e v, b =>
      match b with | .enumMember e' v' => e == e' && v == v' | _ => false
  | .joe o, b => match b with | .joe p => JoeObj.beq o p | _ => false
termination_by structural a _ => a

def PyVal.beqList : List PyVal → List PyVal → Bool
  | [], bs => match bs with | [] => true | _ => false
  | a :: as, bs =>
      match bs with
      | b :: bs' => PyVal.beq a b && PyVal.beqList as bs'
      | _ => false
termination_by structural as _ => as

def PyVal.beqKVs : List (PyVal × PyVal) → List (PyVal × PyVal) → Bool
  | [], bs => match bs with | [] => true | _ => false
  | (k, v) :: as, bs =>
      match bs with
      | (k', v') :: bs' => PyVal.beq k k' && PyVal.beq v v' && PyVal.beqKVs as bs'
      | _ => false
termination_by structural as _ => as

def PyVal.beqFields : List (String × PyVal) → List (String × PyVal) → Bool
  | [], bs => match bs with | [] => true | _ => false
  | (n, v) :: as, bs =>
      match bs with
      | (n', v') :: bs' => n == n' && PyVal.beq v v' && PyVal.beqFields as bs'
      | _ => false
termination_by structural as _ => as

def JoeObj.beq : JoeObj → JoeObj → Bool
  | .mk p c fs, o =>
      match o with
      | .mk p' c' fs' => p == p' && c == c' && PyVal.beqFields fs fs'
termination_by structural o _ => o
end

theorem PyVal.beq_iff_all (n : Nat) :
    (∀ a b : PyVal, sizeOf a ≤ n → (PyVal.beq a b = true ↔ a = b)) ∧
    (∀ as bs : List PyVal, sizeOf as ≤ n → (PyVal.beqList as bs = true ↔ as = bs)) ∧
    (∀ as bs : List (PyVal × PyVal), sizeOf as ≤ n →
      (PyVal.beqKVs as bs = true ↔ as = bs)) ∧
    (∀ as bs : List (String × PyVal), sizeOf as ≤ n →
      (PyVal.beqFields as bs = true ↔ as = bs)) ∧
    (∀ o p : JoeObj, sizeOf o ≤ n → (JoeObj.beq o p = true ↔ o = p)) := by
  induction n using Nat.strong_induction_on with
  | _ n IH =>
    refine ⟨?_, ?_, ?_, ?_, ?_⟩
    · intro a b h
      cases a with
      | none => cases b <;> simp [PyVal.beq]
      | bool a => cases b <;> simp [PyVal.beq]
      | int a => cases b <;> simp [PyVal.beq]
      | float a => cases b <;> simp [PyVal.beq]
      | str a => cases b <;> simp [PyVal.beq]
      | datetime a => cases b <;> simp [PyVal.beq]
      | enumMember e v => cases b <;> simp [PyVal.beq]
      | list as =>
          cases b <;> simp [PyVal.beq]
          rename_i bs
          exact (IH (sizeOf as) (by simp at h; omega)).2.1 as bs le_rfl
      | tuple as =>
          cases b <;> simp [PyVal.beq]
          rename_i bs
          exact (IH (sizeOf as) (by simp at h; omega)).2.1 as bs le_rfl
      | dict as =>
          cases b <;> simp [PyVal.beq]
          rename_i bs
          exact (IH (sizeOf as) (by simp at h; omega)).2.2.1 as bs le_rfl
      | joe o =>
          cases b <;> simp [PyVal.beq]
          rename_i p
          exact (IH (sizeOf o) (by simp at h; omega)).2.2.2.2 o p le_rfl
    · intro as bs h
      cases as with
      | nil => cases bs <;> simp [PyVal.beqList]
      | cons a as =>
          cases bs with
          | nil => simp [PyVal.beqList]
          | cons b bs =>
              have h1 := (IH (sizeOf a) (by simp at h; omega)).1 a b le_rfl
              have h2 := (IH (sizeOf as) (by simp at h; omega)).2.1 as bs le_rfl
              simp [PyVal.beqList, h1, h2]
    · intro as bs h
      cases as with
      | nil => cases bs <;> simp [PyVal.beqKVs]
      | cons a as =>
          obtain ⟨k, v⟩ := a
          cases bs with
          | nil => simp [PyVal.beqKVs]
          | cons b bs =>
              obtain ⟨k', v'⟩ := b
              have h1 := (IH (sizeOf k) (by simp at h; omega)).1 k k' le_rfl
              have h2 := (IH (sizeOf v) (by simp at h; omega)).1 v v' le_rfl
              have h3 := (IH (sizeOf as) (by simp at h; omega)).2.2.1 as bs le_rfl
              simp [PyVal.beqKVs, h1, h2, h3, and_assoc]
    · intro as bs h
      cases as with
      | nil => cases bs <;> simp [PyVal.beqFields]
      | cons a as =>
          obtain ⟨nm, v⟩ := a
          cases bs with
          | nil => simp [PyVal.beqFields]
          | cons b bs =>
              obtain ⟨nm', v'⟩ := b
              have h2 := (IH (sizeOf v) (by simp at h; omega)).1 v v' le_rfl
              have h3 := (IH (sizeOf as) (by simp at h; omega)).2.2.2.1 as bs le_rfl
              simp [PyVal.beqFields, h2, h3, and_assoc]
    · intro o p h
      obtain ⟨pid, c, fs⟩ := o
      obtain ⟨pid', c', fs'⟩ := p
      have h3 := (IH (sizeOf fs) (by simp at h; omega)).2.2.2.1 fs fs' le_rfl
      simp [JoeObj.beq, h3, and_assoc]

theorem PyVal.beq_iff (a b : PyVal) : PyVal.beq a b = true ↔ a = b :=
  (PyVal.beq_iff_all (sizeOf a)).1 a b le_rfl

theorem JoeObj.beq_iff_obj (o p : JoeObj) : JoeObj.beq o p = true ↔ o = p :=
  (PyVal.beq_iff_all (sizeOf o)).2.2.2.2 o p le_rfl

instance : DecidableEq PyVal := fun a b =>
  decidable_of_iff _ (PyVal.beq_iff a b)

instance : DecidableEq JoeObj := fun o p =>
  decidable_of_iff _ (JoeObj.beq_iff_obj o p)



mutual
/-- Structural equality on `PyType`, giving decidable equality. -/
def PyType.tyBeq : PyType → PyType → Bool
  | .bool, b => match b with | .bool => true | _ => false
  | .int, b => match b with | .int => true | _ => false
  | .float, b => match b with | .float => true | _ => false
  | .str, b => match b with | .str => true | _ => false
  | .datetime, b => match b with | .datetime => true | _ => false
  | .noneT, b => match b with | .noneT => true | _ => false
  | .list0, b => match b with | .list0 => true | _ => false
  | .tuple0, b => match b with | .tuple0 => true | _ => false
  | .dict0, b => match b with | .dict0 => true | _ => false
  | .enum e vs, b =>
      match b with | .enum e' vs' => e == e' && vs == vs' | _ => false
  | .joeClass c, b => match b with | .joeClass c' => c == c' | _ => false
  | .listOf t, b => match b with | .listOf t' => PyType.tyBeq t t' | _ => false
  | .tupleOf ts, b =>
      match b with | .tupleOf ts' => PyType.tyBeqList ts ts' | _ => false
  | .dictOf k v, b =>
      match b with
      | .dictOf k' v' => PyType.tyBeq k k' && PyType.tyBeq v v'
      | _ => false
  | .union ts, b =>
      match b with | .union ts' => PyType.tyBeqList ts ts' | _ => false
termination_by structural a _ => a

def PyType.tyBeqList : List PyType → List PyType → Bool
  | [], bs => match bs with | [] => true | _ => false
  | a :: as, bs =>
      match bs with
      | b :: bs' => PyType.tyBeq a b && PyType.tyBeqList as bs'
      | _ => false
termination_by structural as _ => as
end

theorem PyType.tyBeq_iff_all (n : Nat) :
    (∀ a b : PyType, sizeOf a ≤ n → (PyType.tyBeq a b = true ↔ a = b)) ∧
    (∀ as bs : List PyType, sizeOf as ≤ n →
      (PyType.tyBeqList as bs = true ↔ as = bs)) := by
  induction n using Nat.strong_induction_on with
  | _ n IH =>
    constructor
    · intro a b h
      cases a with
      | enum e vs => cases b <;> simp [PyType.tyBeq]
      | joeClass c => cases b <;> simp [PyType.tyBeq]
      | listOf t =>
          cases b <;> simp [PyType.tyBeq]
          rename_i t'
          exact (IH (sizeOf t) (by simp at h; omega)).1 t t' le_rfl
      | tupleOf ts =>
          cases b <;> simp [PyType.tyBeq]
          rename_i ts'
          exact (IH (sizeOf ts) (by simp at h; omega)).2 ts ts' le_rfl
      | dictOf k v =>
          cases b <;> simp [PyType.tyBeq]
          rename_i k' v'
          have h1 := (IH (sizeOf k) (by simp at h; omega)).1 k k' le_rfl
          have h2 := (IH (sizeOf v) (by simp at h; omega)).1 v v' le_rfl
          simp [h1, h2]
      | union ts =>
          cases b <;> simp [PyType.tyBeq]
          rename_i ts'
          exact (IH (sizeOf ts) (by simp at h; omega)).2 ts ts' le_rfl
      | _ => cases b <;> simp [PyType.tyBeq]
    · intro as bs h
      cases as with
      | nil => cases bs <;> simp [PyType.tyBeqList]
      | cons a as =>
          cases bs with
          | nil => simp [PyType.tyBeqList]
          | cons b bs =>
              have h1 := (IH (sizeOf a) (by simp at h; omega)).1 a b le_rfl
              have h2 := (IH (sizeOf as) (by simp at h; omega)).2 as bs le_rfl
              simp [PyType.tyBeqList, h1, h2]

instance : DecidableEq PyType := fun a b =>
  decidable_of_iff _ ((PyType.tyBeq_iff_all (sizeOf a)).1 a b le_rfl)

/-! ## Exceptions

One constructor per `raise` site of `base.py` that the claims reach, plus
`typeError` for the `TypeError`s CPython itself raises at the two buggy call
sites, `assertFail` for a failed `validate_*` assertion, and
`stackOverflow` for call-stack exhaustion (the fuel bound of the model).
Each constructor carries the structured arguments the Python message
interpolates; the surrounding prose of the message is not modelled. -/
inductive JErr where
  /-- `JourneyUserInputException` raised with the `error_str` template
  (lines 143, 150, 165, 201 of `base.py`): variable name, inbound value,
  expected types.  The `tag` distinguishes the prefix the site adds
  (`""`, `"ENUM"` for the enum-membership note, `"DICT:"`, none for the
  isinstance failure). -/
  | fieldParse (tag : String) (varname : String) (inbound : PyVal)
      (expected : List PyType)
  /-- The aggregated `FINAL:` failure (line 207): raised when every
  alternative of the fallback loop failed, carrying each attempted type
  paired with the exception it raised. -/
  | finalAggregate (varname : String) (inbound : PyVal)
      (expected : List PyType) (tried : List (PyType × JErr))
  /-- Tuple length/arity mismatch (line 241): carries the inbound sequence
  and the declared element types. -/
  | tupleLenMismatch (varname : String) (inbound : List PyVal)
      (types : List PyType)
  /-- `Expected a dict but got ...` (line 255). -/
  | expectedDict (varname : String) (inbound : PyVal)
  /-- `Expected a list but got ...` (line 257). -/
  | expectedList (varname : String) (inbound : PyVal)
  /-- `Expected a tuple but got ...` (line 259). -/
  | expectedTuple (varname : String) (inbound : PyVal)
  /-- `Could not identify field data structure` (line 261). -/
  | unknownStructure (varname : String)
  /-- A `TypeError` raised by CPython itself (not by the engine): the
  `site` names the offending expression. -/
  | typeError (site : String)
  /-- A failed `assert` inside a `validate_*` method (`AssertionError`),
  carrying the method's name. -/
  | assertFail (checkName : String)

mutual
/-- Structural equality on `JErr`, giving decidable equality. -/
def JErr.errBeq : JErr → JErr → Bool
  | .fieldParse t vn i e, b =>
      match b with
      | .fieldParse t' vn' i' e' => t == t' && vn == vn' && i == i' && e == e'
      | _ => false
  | .finalAggregate vn i e tr, b =>
      match b with
      | .finalAggregate vn' i' e' tr' =>
          vn == vn' && i == i' && e == e' && JErr.errBeqPairs tr tr'
      | _ => false
  | .tupleLenMismatch vn i e, b =>
      match b with
      | .tupleLenMismatch vn' i' e' => vn == vn' && i == i' && e == e'
      | _ => false
  | .expectedDict vn i, b =>
      match b with | .expectedDict vn' i' => vn == vn' && i == i' | _ => false
  | .expectedList vn i, b =>
      match b with | .expectedList vn' i' => vn == vn' && i == i' | _ => false
  | .expectedTuple vn i, b =>
      match b with | .expectedTuple vn' i' => vn == vn' && i == i' | _ => false
  | .unknownStructure vn, b =>
      match b with | .unknownStructure vn' => vn == vn' | _ => false
  | .typeError m, b => match b with | .typeError m' => m == m' | _ => false
  | .assertFail m, b => match b with | .assertFail m' => m == m' | _ => false
termination_by structural a _ => a

def JErr.errBeqPairs : List (PyType × JErr) → List (PyType × JErr) → Bool
  | [], bs => match bs with | [] => true | _ => false
  | (t, e) :: as, bs =>
      match bs with
      | (t', e') :: bs' => t == t' && JErr.errBeq e e' && JErr.errBeqPairs as bs'
      | _ => false
termination_by structural as _ => as
end

theorem JErr.errBeq_iff_all (n : Nat) :
    (∀ a b : JErr, sizeOf a ≤ n → (JErr.errBeq a b = true ↔ a = b)) ∧
    (∀ as bs : List (PyType × JErr), sizeOf as ≤ n →
      (JErr.errBeqPairs as bs = true ↔ as = bs)) := by
  induction n using Nat.strong_induction_on with
  | _ n IH =>
    constructor
    · intro a b h
      cases a with
      | finalAggregate vn i e tr =>
          cases b <;> simp [JErr.errBeq]
          rename_i vn' i' e' tr'
          have h1 := (IH (sizeOf tr) (by simp at h; omega)).2 tr tr' le_rfl
          simp [h1, and_assoc]
      | _ => cases b <;> simp [JErr.errBeq, and_assoc]
    · intro as bs h
      cases as with
      | nil => cases bs <;> simp [JErr.errBeqPairs]
      | cons a as =>
          obtain ⟨t, e⟩ := a
          cases bs with
          | nil => simp [JErr.errBeqPairs]
          | cons b bs =>
              obtain ⟨t', e'⟩ := b
              have h1 := (IH (sizeOf e) (by simp at h; omega)).1 e e' le_rfl
              have h2 := (IH (sizeOf as) (by simp at h; omega)).2 as bs le_rfl
              simp [JErr.errBeqPairs, h1, h2, and_assoc]

instance : DecidableEq JErr := fun a b =>
  decidable_of_iff _ ((JErr.errBeq_iff_all (sizeOf a)).1 a b le_rfl)

instance {ε α : Type} [DecidableEq ε] [DecidableEq α] :
    DecidableEq (Except ε α) := fun a b =>
  match a, b with
  | .ok x, .ok y =>
      if h : x = y then isTrue (by rw [h]) else isFalse (by simp [h])
  | .error x, .error y =>
      if h : x = y then isTrue (by rw [h]) else isFalse (by simp [h])
  | .ok _, .error _ => isFalse (by simp)
  | .error _, .ok _ => isFalse (by simp)

/-- `JourneyObject.decompose_type` (lines 91-123): splits a declared field
type into a container shape and the tuple of element types.  Mirrors the
source branch for branch: parameterized `list`/`tuple`/`dict` report their
`get_args`; unions report their alternatives with no container; bare
`list`/`tuple`/`dict` report an empty element tuple; everything else is
`(None, (obj_type,))`. -/
def decompose_type : PyType → Option Container × List PyType
  | .listOf t => (some .list, [t])
  | .tupleOf ts => (some .tuple, ts)
  | .dictOf k v => (some .dict, [k, v])
  | .union ts => (none, ts)
  | .list0 => (some .list, [])
  | .tuple0 => (some .tuple, [])
  | .dict0 => (some .dict, [])
  | t => (none, [t])

/-! ## Type-membership tests

The source tests `bool in expected_types`, `int in expected_types`, … where
`expected_types` is a tuple of class objects; `in` compares class objects
by identity.  Each test below recognises exactly the corresponding class
object. -/

def PyType.isBool : PyType → Bool | .bool => true | _ => false
def PyType.isInt : PyType → Bool | .int => true | _ => false
def PyType.isFloat : PyType → Bool | .float => true | _ => false
def PyType.isStr : PyType → Bool | .str => true | _ => false
def PyType.isDatetime : PyType → Bool | .datetime => true | _ => false
def PyType.isNone : PyType → Bool | .noneT => true | _ => false
def PyType.isList0 : PyType → Bool | .list0 => true | _ => false
def PyType.isDict0 : PyType → Bool | .dict0 => true | _ => false
def PyType.isEnum : PyType → Bool | .enum _ _ => true | _ => false
def PyType.isJoeClass : PyType → Bool | .joeClass _ => true | _ => false

def hasBool (ts : List PyType) : Bool := ts.any PyType.isBool
def hasInt (ts : List PyType) : Bool := ts.any PyType.isInt
def hasFloat (ts : List PyType) : Bool := ts.any PyType.isFloat
def hasStr (ts : List PyType) : Bool := ts.any PyType.isStr
def hasDatetime (ts : List PyType) : Bool := ts.any PyType.isDatetime
def hasNoneType (ts : List PyType) : Bool := ts.any PyType.isNone
def hasList0 (ts : List PyType) : Bool := ts.any PyType.isList0
def hasDict0 (ts : List PyType) : Bool := ts.any PyType.isDict0

/-- `isinstance(inbound_var, t)` for the plain (non-parameterized) class
objects that can reach the `isinstance` call of the fallback branch
(line 198).  Note Python peculiarities preserved here: `bool` is a
subclass of `int`, so integers-as-`isinstance`-targets accept Booleans;
an enum member is an instance of its own enum class only; parameterized
generics never reach this call (`decompose_type` strips them first), so
their result is immaterial and chosen `false`. -/
def pyIsinstance : PyVal → PyType → Bool
  | .none, .noneT => true
  | .bool _, .bool => true
  | .bool _, .int => true
  | .int _, .int => true
  | .float _, .float => true
  | .str _, .str => true
  | .list _, .list0 => true
  | .tuple _, .tuple0 => true
  | .dict _, .dict0 => true
  | .datetime _, .datetime => true
  | .enumMember e _, .enum e' _ => e == e'
  | .joe o, .joeClass c => o.cls == c
  | _, _ => false

/-! ## Encoder and equality oracle -/

/-- Attribute access `getattr(o, n)` on the stored field map. -/
def lookupField (o : JoeObj) (n : String) : Option PyVal :=
  (o.fields.find? (fun p => p.1 == n)).map Prod.snd

/-- JSON string escaping of `json.dumps` (quotes and backslashes; other
escapes do not occur in the repository's data). -/
def escapeJson (s : String) : String :=
  String.mk (s.data.foldr
    (fun c acc => if c = '"' ∨ c = '\\' then '\\' :: c :: acc else c :: acc) [])

/-- Rendering of a Python float by `json.dumps`.  Only injectivity and
disjointness from the integer rendering matter to the theorems (floats
always print with a decimal point, integers never do); the model prints
the exact rational with an explicit marker. -/
def floatRepr (q : Rat) : String :=
  "float(" ++ toString q.num ++ "/" ++ toString q.den ++ ")"

/-- `json.dumps` key coercion: string keys are quoted, Boolean/number keys
are stringified then quoted.  Other key types make `json.dumps` raise
`TypeError`; no claim path produces them, and the model renders an empty
key for totality. -/
def dumpsKey : PyVal → String
  | .str s => "\"" ++ escapeJson s ++ "\""
  | .bool b => if b then "\"true\"" else "\"false\""
  | .int n => "\"" ++ toString n ++ "\""
  | .float q => "\"" ++ floatRepr q ++ "\""
  | _ => "\"\""

mutual
/-- `json.dumps` on the JSON-compatible trees the serializer produces.
`datetime` / enum-member / record values make the real `json.dumps` raise
`TypeError`; they can only reach it inside a tuple, which no claim path
contains, and the model renders them with an injective marker for
totality. -/
def jsonDumps : PyVal → String
  | .none => "null"
  | .bool b => if b then "true" else "false"
  | .int n => toString n
  | .float q => floatRepr q
  | .str s => "\"" ++ escapeJson s ++ "\""
  | .list xs => "[" ++ jsonDumpsList xs ++ "]"
  | .tuple xs => "[" ++ jsonDumpsList xs ++ "]"
  | .dict kvs => "\x7b" ++ jsonDumpsKVs kvs ++ "\x7d"
  | .datetime s => "!datetime:" ++ s
  | .enumMember e v => "!enum:" ++ e ++ ":" ++ v
  | .joe o => "!joe:" ++ toString o.pyid

def jsonDumpsList : List PyVal → String
  | [] => ""
  | [x] => jsonDumps x
  | x :: xs => jsonDumps x ++ ", " ++ jsonDumpsList xs

def jsonDumpsKVs : List (PyVal × PyVal) → String
  | [] => ""
  | [(k, v)] => dumpsKey k ++ ": " ++ jsonDumps v
  | (k, v) :: kvs => dumpsKey k ++ ": " ++ jsonDumps v ++ ", " ++ jsonDumpsKVs kvs
end

/-- `obj.id` as read by the serializer (line 410): the value of the `id`
field.  Constructed instances always carry one. -/
def joeIdVal (o : JoeObj) : PyVal := (lookupField o "id").getD PyVal.none

mutual
/-- `JourneyObject.JourneyObjectFieldSerializer` (lines 396-411), branch
for branch in source order: `datetime` → ISO text; `dict` → the value map
serialized element-wise then re-serialized to a *string* sub-document by
`json.dumps` (keys untouched); `list` → likewise double-encoded to a
string; enum member → its declared value; record instance → its `id`;
everything else passes through. -/
def serializeField : PyVal → PyVal
  | .datetime s => .str s
  | .dict kvs => .str (jsonDumps (.dict (serializeKVs kvs)))
  | .list xs => .str (jsonDumps (.list (serializeList xs)))
  | .enumMember _ val => .str val
  | .joe o => joeIdVal o
  | v => v

def serializeList : List PyVal → List PyVal
  | [] => []
  | x :: xs => serializeField x :: serializeList xs

def serializeKVs : List (PyVal × PyVal) → List (PyVal × PyVal)
  | [] => []
  | (k, v) :: kvs => (k, serializeField v) :: serializeKVs kvs
end

/-- The field map handed to `json.dumps` by `to_json` (lines 413-416):
each attribute rendered by the serializer, in dataclass field order. -/
def to_json_fields (o : JoeObj) : List (String × PyVal) :=
  o.fields.map (fun p => (p.1, serializeField p.2))

/-- `JourneyObject.to_json`: the serialized field map dumped to JSON
text. -/
def to_json (o : JoeObj) : String :=
  jsonDumps (.dict ((to_json_fields o).map (fun p => (PyVal.str p.1, p.2))))

/-- `JourneyObject.__eq__` as written (lines 418-419):
`isinstance(other, self.__class__) and self.to_json() == other.to_json()`.
The class hierarchy of the repository is flat (every record type derives
directly from `JourneyObject` and nothing subclasses a record type), so
the `isinstance` test is equality of classes.

This method is the spec's Equality Oracle (encoder-output equality), but
it is **not** the `==` that runs on record instances: every concrete
record type is itself decorated `@dataclass` with the default `eq=True`,
so CPython puts a generated field-tuple `__eq__` into the subclass's own
`__dict__`, shadowing this one.  The operative relation is embedded
below as `pyObjEq`. -/
def joe_eq (slf other : JoeObj) : Bool :=
  other.cls == slf.cls && (to_json slf == to_json other)

theorem joe_eq_iff (a b : JoeObj) :
    joe_eq a b = true ↔ (b.cls = a.cls ∧ to_json a = to_json b) := by
  simp [joe_eq]

@[simp] theorem joe_eq_refl (a : JoeObj) : joe_eq a a = true := by
  simp [joe_eq]

theorem joe_eq_symm (a b : JoeObj) : joe_eq a b = joe_eq b a := by
  by_cases h1 : joe_eq a b = true
  · have h2 : joe_eq b a = true := by
      rw [joe_eq_iff] at h1 ⊢
      exact ⟨h1.1.symm, h1.2.symm⟩
    rw [h1, h2]
  · have h2 : ¬joe_eq b a = true := by
      rw [joe_eq_iff] at h1 ⊢
      intro hc
      exact h1 ⟨hc.1.symm, hc.2.symm⟩
    simp only [Bool.not_eq_true] at h1 h2
    rw [h1, h2]

theorem joe_eq_trans {a b c : JoeObj} (h1 : joe_eq a b = true)
    (h2 : joe_eq b c = true) : joe_eq a c = true := by
  rw [joe_eq_iff] at h1 h2 ⊢
  exact ⟨h2.1.trans h1.1, h1.2.trans h2.2⟩


/-! ## The operative instance equality: the dataclass-generated `__eq__`

`JourneyObject.__eq__` (lines 418-419, embedded above as `joe_eq`) is
*shadowed* in every concrete record type: each subclass is itself
decorated `@dataclass` with the default `eq=True`, so CPython inserts a
generated field-tuple `__eq__` into the subclass's own `__dict__`.  The
`==` that actually runs on record instances — in particular the registry
scan of `consolidate_family_tree` (line 439) — therefore compares
`other.__class__ is self.__class__` and then the tuples of declared
field values, elementwise with Python `==`: deep structural comparison in
which `bool`/`int`/`float` compare by numeric value, mappings compare
order-insensitively by key lookup, and enum members compare by identity.
`pyEq` below embeds that relation.

Mapping keys must be hashable in Python (`list`/`dict`/record instances
are not), so the key comparisons a mapping lookup performs range over the
hashable values only; `pyEqKey` embeds `==` on those and is what the
lookup uses, which keeps the whole relation structurally recursive. -/

mutual
/-- Python `==` restricted to hashable values (the only values that can
occur as mapping keys): `None`, Booleans/integers/floats by numeric
value, text, timestamps by instant, enum members by identity, tuples
elementwise.  Unhashable values cannot be keys; the model returns
`false` for them. -/
def pyEqKey : PyVal → PyVal → Bool
  | .none, b => match b with | .none => true | _ => false
  | .bool x, b =>
      match b with
      | .bool y => x == y
      | .int m => (if x then (1 : Int) else 0) == m
      | .float q => decide (mkRat (if x then 1 else 0) 1 = q)
      | _ => false
  | .int n, b =>
      match b with
      | .bool y => n == (if y then (1 : Int) else 0)
      | .int m => n == m
      | .float q => decide (mkRat n 1 = q)
      | _ => false
  | .float q, b =>
      match b with
      | .bool y => decide (q = mkRat (if y then 1 else 0) 1)
      | .int m => decide (q = mkRat m 1)
      | .float q2 => decide (q = q2)
      | _ => false
  | .str s, b => match b with | .str t => s == t | _ => false
  | .datetime s, b => match b with | .datetime t => s == t | _ => false
  | .enumMember e v, b =>
      match b with | .enumMember e2 v2 => e == e2 && v == v2 | _ => false
  | .tuple xs, b => match b with | .tuple ys => pyEqKeyList xs ys | _ => false
  | .list _, _ => false
  | .dict _, _ => false
  | .joe _, _ => false
termination_by structural a _ => a

def pyEqKeyList : List PyVal → List PyVal → Bool
  | [], bs => match bs with | [] => true | _ => false
  | x :: xs, bs =>
      match bs with
      | y :: ys => pyEqKey x y && pyEqKeyList xs ys
      | _ => false
termination_by structural as _ => as
end

/-- `d[k]` / `k in d`: the stored value whose key compares `==` to `k`
(unique in a real mapping). -/
def lookupByKey (k : PyVal) : List (PyVal × PyVal) → Option PyVal
  | [] => Option.none
  | (k2, v2) :: rest => if pyEqKey k k2 then some v2 else lookupByKey k rest

mutual
/-- Python `==` on the model's values: the relation the dataclass-generated
`__eq__` applies to each field.  Numeric tower (`True == 1 == 1.0`),
text/timestamp equality, lists and tuples elementwise (never equal to
each other), mappings by size plus per-key lookup (order-insensitive),
enum members by identity, record instances by the generated `__eq__`;
mismatched kinds are unequal (`NotImplemented` on both sides falls back
to identity, and distinct model values are distinct objects). -/
def pyEq : PyVal → PyVal → Bool
  | .none, b => match b with | .none => true | _ => false
  | .bool x, b =>
      match b with
      | .bool y => x == y
      | .int m => (if x then (1 : Int) else 0) == m
      | .float q => decide (mkRat (if x then 1 else 0) 1 = q)
      | _ => false
  | .int n, b =>
      match b with
      | .bool y => n == (if y then (1 : Int) else 0)
      | .int m => n == m
      | .float q => decide (mkRat n 1 = q)
      | _ => false
  | .float q, b =>
      match b with
      | .bool y => decide (q = mkRat (if y then 1 else 0) 1)
      | .int m => decide (q = mkRat m 1)
      | .float q2 => decide (q = q2)
      | _ => false
  | .str s, b => match b with | .str t => s == t | _ => false
  | .datetime s, b => match b with | .datetime t => s == t | _ => false
  | .list xs, b => match b with | .list ys => pyEqList xs ys | _ => false
  | .tuple xs, b => match b with | .tuple ys => pyEqList xs ys | _ => false
  | .dict kvs, b =>
      match b with
      | .dict kvs2 => kvs.length == kvs2.length && pyEqKVs kvs kvs2
      | _ => false
  | .enumMember e v, b =>
      match b with | .enumMember e2 v2 => e == e2 && v == v2 | _ => false
  | .joe o, b => match b with | .joe p => pyObjEq o p | _ => false
termination_by structural a _ => a

def pyEqList : List PyVal → List PyVal → Bool
  | [], bs => match bs with | [] => true | _ => false
  | x :: xs, bs =>
      match bs with
      | y :: ys => pyEq x y && pyEqList xs ys
      | _ => false
termination_by structural as _ => as

/-- The key loop of `dict.__eq__`: every key of the left mapping is looked
up in the right one and the stored values compared (with the size check
done by the caller, this is Python's mapping equality). -/
def pyEqKVs : List (PyVal × PyVal) → List (PyVal × PyVal) → Bool
  | [], _ => true
  | (k, v) :: rest, bs =>
      (match lookupByKey k bs with
       | some v2 => pyEq v v2
       | Option.none => false) && pyEqKVs rest bs
termination_by structural as _ => as

def pyEqFields : List (String × PyVal) → List (String × PyVal) → Bool
  | [], bs => match bs with | [] => true | _ => false
  | (nm, v) :: rest, bs =>
      match bs with
      | (nm2, v2) :: rest2 => nm == nm2 && pyEq v v2 && pyEqFields rest rest2
      | _ => false
termination_by structural as _ => as

/-- The dataclass-generated `__eq__` of every record type: same class,
then the tuples of declared field values compared elementwise with
Python `==`.  Object identity (`pyid`) is not a field and plays no
part. -/
def pyObjEq : JoeObj → JoeObj → Bool
  | .mk _ c fs, p =>
      match p with
      | .mk _ c2 fs2 => c == c2 && pyEqFields fs fs2
termination_by structural o _ => o
end

mutual
/-- The value can be a mapping key in Python (`hash()` succeeds). -/
def isHashable : PyVal → Bool
  | .list _ => false
  | .dict _ => false
  | .joe _ => false
  | .tuple xs => isHashableList xs
  | _ => true
termination_by structural a => a

def isHashableList : List PyVal → Bool
  | [] => true
  | x :: xs => isHashable x && isHashableList xs
termination_by structural as => as
end

/-- The key list is one a real Python mapping can have: every key
hashable and no two keys `==`-equal (equal keys collide into one slot). -/
def dictKeysOk : List (PyVal × PyVal) → Bool
  | [] => true
  | (k, _) :: rest =>
      isHashable k && rest.all (fun q => !pyEqKey k q.1 && !pyEqKey q.1 k) &&
        dictKeysOk rest

mutual
/-- The value is one a real Python execution can build: every mapping
nested anywhere in it has a real key list.  Every value the program
manipulates satisfies this; it is what makes `==` reflexive. -/
def wfVal : PyVal → Bool
  | .list xs => wfList xs
  | .tuple xs => wfList xs
  | .dict kvs => dictKeysOk kvs && wfKVs kvs
  | .joe o => wfObj o
  | _ => true
termination_by structural a => a

def wfList : List PyVal → Bool
  | [] => true
  | x :: xs => wfVal x && wfList xs
termination_by structural as => as

def wfKVs : List (PyVal × PyVal) → Bool
  | [] => true
  | (k, v) :: rest => wfVal k && wfVal v && wfKVs rest
termination_by structural as => as

def wfObj : JoeObj → Bool
  | .mk _ _ fs => wfFields fs
termination_by structural o => o

def wfFields : List (String × PyVal) → Bool
  | [] => true
  | (_, v) :: rest => wfVal v && wfFields rest
termination_by structural as => as
end


theorem pyEqKey_refl_all (n : Nat) :
    (∀ k : PyVal, sizeOf k ≤ n → isHashable k = true →
      pyEqKey k k = true) ∧
    (∀ ks : List PyVal, sizeOf ks ≤ n → isHashableList ks = true →
      pyEqKeyList ks ks = true) := by
  induction n using Nat.strong_induction_on with
  | _ n IH =>
    constructor
    · intro k hsz hh
      cases k with
      | none => simp [pyEqKey]
      | bool x => simp [pyEqKey]
      | int m => simp [pyEqKey]
      | float q => simp [pyEqKey]
      | str s => simp [pyEqKey]
      | datetime s => simp [pyEqKey]
      | enumMember e v => simp [pyEqKey]
      | tuple xs =>
          simp only [isHashable] at hh
          exact (IH (sizeOf xs) (by simp at hsz; omega)).2 xs le_rfl hh
      | list xs => simp [isHashable] at hh
      | dict kvs => simp [isHashable] at hh
      | joe o => simp [isHashable] at hh
    · intro ks hsz hh
      cases ks with
      | nil => simp [pyEqKeyList]
      | cons x xs =>
          simp only [isHashableList, Bool.and_eq_true] at hh
          have h1 := (IH (sizeOf x) (by simp at hsz; omega)).1 x le_rfl hh.1
          have h2 := (IH (sizeOf xs) (by simp at hsz; omega)).2 xs le_rfl hh.2
          simp [pyEqKeyList, h1, h2]

theorem pyEqKey_refl (k : PyVal) (h : isHashable k = true) :
    pyEqKey k k = true :=
  (pyEqKey_refl_all (sizeOf k)).1 k le_rfl h

/-- In a real mapping, looking a stored key up finds its own entry. -/
theorem lookupByKey_self : ∀ (kvs : List (PyVal × PyVal)),
    dictKeysOk kvs = true → ∀ p ∈ kvs, lookupByKey p.1 kvs = some p.2 := by
  intro kvs
  induction kvs with
  | nil => intro _ p hp; simp at hp
  | cons q rest ih =>
      intro hok p hp
      obtain ⟨k, v⟩ := q
      simp only [dictKeysOk, Bool.and_eq_true, List.all_eq_true] at hok
      obtain ⟨⟨hh, hdist⟩, hrest⟩ := hok
      rcases List.mem_cons.mp hp with rfl | hp'
      · simp [lookupByKey, pyEqKey_refl k hh]
      · have hne : pyEqKey p.1 k = false := by
          simpa using (hdist p hp').2
        simp [lookupByKey, hne, ih hrest p hp']

theorem pyEq_refl_all (n : Nat) :
    (∀ a : PyVal, sizeOf a ≤ n → wfVal a = true → pyEq a a = true) ∧
    (∀ xs : List PyVal, sizeOf xs ≤ n → wfList xs = true →
      pyEqList xs xs = true) ∧
    (∀ (as bs : List (PyVal × PyVal)), sizeOf as ≤ n → wfKVs as = true →
      (∀ p ∈ as, lookupByKey p.1 bs = some p.2) → pyEqKVs as bs = true) ∧
    (∀ fs : List (String × PyVal), sizeOf fs ≤ n → wfFields fs = true →
      pyEqFields fs fs = true) ∧
    (∀ o : JoeObj, sizeOf o ≤ n → wfObj o = true → pyObjEq o o = true) := by
  induction n using Nat.strong_induction_on with
  | _ n IH =>
    refine ⟨?_, ?_, ?_, ?_, ?_⟩
    · intro a hsz hwf
      cases a with
      | none => simp [pyEq]
      | bool x => simp [pyEq]
      | int m => simp [pyEq]
      | float q => simp [pyEq]
      | str s => simp [pyEq]
      | datetime s => simp [pyEq]
      | enumMember e v => simp [pyEq]
      | list xs =>
          simp only [wfVal] at hwf
          exact (IH (sizeOf xs) (by simp at hsz; omega)).2.1 xs le_rfl hwf
      | tuple xs =>
          simp only [wfVal] at hwf
          exact (IH (sizeOf xs) (by simp at hsz; omega)).2.1 xs le_rfl hwf
      | dict kvs =>
          simp only [wfVal, Bool.and_eq_true] at hwf
          have hkv := (IH (sizeOf kvs) (by simp at hsz; omega)).2.2.1 kvs kvs
            le_rfl hwf.2 (lookupByKey_self kvs hwf.1)
          simp [pyEq, hkv]
      | joe o =>
          simp only [wfVal] at hwf
          exact (IH (sizeOf o) (by simp at hsz; omega)).2.2.2.2 o le_rfl hwf
    · intro xs hsz hwf
      cases xs with
      | nil => simp [pyEqList]
      | cons x xs =>
          simp only [wfList, Bool.and_eq_true] at hwf
          have h1 := (IH (sizeOf x) (by simp at hsz; omega)).1 x le_rfl hwf.1
          have h2 := (IH (sizeOf xs) (by simp at hsz; omega)).2.1 xs le_rfl
            hwf.2
          simp [pyEqList, h1, h2]
    · intro as bs hsz hwf hlk
      cases as with
      | nil => simp [pyEqKVs]
      | cons q rest =>
          obtain ⟨k, v⟩ := q
          simp only [wfKVs, Bool.and_eq_true] at hwf
          have hv := (IH (sizeOf v) (by simp at hsz; omega)).1 v le_rfl
            hwf.1.2
          have hr := (IH (sizeOf rest) (by simp at hsz; omega)).2.2.1 rest bs
            le_rfl hwf.2 (fun p hp => hlk p (List.mem_cons_of_mem _ hp))
          have hk := hlk (k, v) (List.mem_cons_self _ _)
          simp [pyEqKVs, hk, hv, hr]
    · intro fs hsz hwf
      cases fs with
      | nil => simp [pyEqFields]
      | cons q rest =>
          obtain ⟨nm, v⟩ := q
          simp only [wfFields, Bool.and_eq_true] at hwf
          have h1 := (IH (sizeOf v) (by simp at hsz; omega)).1 v le_rfl hwf.1
          have h2 := (IH (sizeOf rest) (by simp at hsz; omega)).2.2.2.1 rest
            le_rfl hwf.2
          simp [pyEqFields, h1, h2]
    · intro o hsz hwf
      obtain ⟨pid, c, fs⟩ := o
      simp only [wfObj] at hwf
      have h := (IH (sizeOf fs) (by simp at hsz; omega)).2.2.2.1 fs le_rfl hwf
      simp [pyObjEq, h]

/-- Python `==` is reflexive on every value an execution can build. -/
theorem pyEq_refl (a : PyVal) (h : wfVal a = true) : pyEq a a = true :=
  (pyEq_refl_all (sizeOf a)).1 a le_rfl h

/-- The generated `__eq__` is reflexive on every constructible instance. -/
theorem pyObjEq_refl (o : JoeObj) (h : wfObj o = true) :
    pyObjEq o o = true :=
  (pyEq_refl_all (sizeOf o)).2.2.2.2 o le_rfl h

/-! ## Record type declarations -/

/-- One dataclass field: name, annotated type, optional declared default. -/
structure JoeField where
  name : String
  ty : PyType
  dflt : Option PyVal

/-- A record type: class name, fields in declaration order, and the
`validate_*` methods in *declaration* order, each a named predicate over
the already-coerced instance (the body of the Python method's `assert`;
an `assert` that would raise `TypeError` on an unexpectedly-shaped value
is modelled as returning `false`, both outcomes abort construction). -/
structure JoeClassDecl where
  name : String
  fields : List JoeField
  validators : List (String × (JoeObj → Bool))

/-- The universe of declared record types
(`JourneyObject.__subclasses__()`). -/
abbrev Env := List JoeClassDecl

def lookupClass (env : Env) (n : String) : Option JoeClassDecl :=
  env.find? (fun d => d.name == n)

/-- The field names `joe_children` (lines 424-429) selects: fields whose
*declared* type is itself a `JourneyObject` subclass.  Parameterized and
optional record types (`list[X]`, `Optional[X]`) are not in
`__subclasses__()` and are skipped by the source. -/
def joeFieldNames (env : Env) (cname : String) : List String :=
  match lookupClass env cname with
  | some d => (d.fields.filter (fun f => f.ty.isJoeClass)).map (fun f => f.name)
  | Option.none => []

/-- Interpreter state: the process-wide registry behind the mutable
default argument `all_joe_objs = []` of `consolidate_family_tree`, plus a
counter allocating fresh CPython object identities. -/
structure ConsState where
  registry : List JoeObj
  nextId : Nat
deriving DecidableEq

/-! ## Validator dispatcher -/

/-- Lexicographic order on the characters of two names: `dir()` sorts
attribute names by code point, which for the ASCII method names of the
repository is exactly this order. -/
def charListLe : List Char → List Char → Bool
  | [], _ => true
  | _ :: _, [] => false
  | c :: cs, d :: ds =>
      if c < d then true else if d < c then false else charListLe cs ds

def nameLe (a b : String) : Bool := charListLe a.data b.data

/-- Insertion step of sorting the named checks. -/
def insertByName (c : String × (JoeObj → Bool)) :
    List (String × (JoeObj → Bool)) → List (String × (JoeObj → Bool))
  | [] => [c]
  | d :: ds => if nameLe c.1 d.1 then c :: d :: ds else d :: insertByName c ds

/-- `dir(self)` enumerates attribute names in sorted (lexicographic) order;
this sorts the declared `validate_*` methods accordingly. -/
def sortValidators (cs : List (String × (JoeObj → Bool))) :
    List (String × (JoeObj → Bool)) :=
  cs.foldr insertByName []

/-- The list comprehension of `validate`: call each discovered check in
turn; the first `AssertionError` raised propagates immediately, so checks
after it never run. -/
def runChecks (o : JoeObj) : List (String × (JoeObj → Bool)) → Except JErr Unit
  | [] => .ok ()
  | (n, p) :: rest => if p o then runChecks o rest else .error (.assertFail n)

/-- `JourneyObject.validate` (lines 71-73): run every `validate_`-prefixed
callable found by `dir(self)` — hence in alphabetical name order — failing
fast on the first assertion failure. -/
def validate (cls : JoeClassDecl) (o : JoeObj) : Except JErr Unit :=
  runChecks o (sortValidators cls.validators)

/-! ## Graph consolidator -/

theorem JoeObj.sizeOf_fields_lt (o : JoeObj) : sizeOf o.fields < sizeOf o := by
  cases o with
  | mk p c fs => simp [JoeObj.fields]

mutual
/-- `JourneyObject.consolidate_family_tree` (lines 431-443).  Components of
the result: the method's return value (a canonical registry member, or
`self`), the mutated `self` (its record-typed children have been
`setattr`-ed to the recursive results), and the updated `all_joe_objs`
registry.  The registry scan of lines 438-440 evaluates
`self == existing_obj` against each member in insertion order and
returns the first match; `==` on record instances is the
dataclass-generated field-tuple `__eq__` (`pyObjEq` — the custom
`JourneyObject.__eq__` is shadowed in every subclass); line 442 appends
`self` when no member matches. -/
def consolidate_family_tree (env : Env) :
    JoeObj → List JoeObj → JoeObj × JoeObj × List JoeObj
  | JoeObj.mk pid c fs, reg =>
    let r := consolidate_children env (joeFieldNames env c) fs reg
    let oSelf := JoeObj.mk pid c r.1
    match r.2.find? (fun e => pyObjEq oSelf e) with
    | some e => (e, oSelf, r.2)
    | Option.none => (oSelf, oSelf, r.2 ++ [oSelf])
termination_by structural o _ => o

/-- The child loop (lines 432-436): walk the attribute list; each
`joe_children` entry (declared record type) holding an instance is
replaced by the recursive consolidation result; entries holding an id
string — and all other fields — are left alone. -/
def consolidate_children (env : Env) (jn : List String) :
    List (String × PyVal) → List JoeObj → List (String × PyVal) × List JoeObj
  | [], reg => ([], reg)
  | (n, v) :: rest, reg =>
    if jn.contains n then
      match v with
      | PyVal.joe c =>
          let q := consolidate_family_tree env c reg
          let r := consolidate_children env jn rest q.2.2
          ((n, PyVal.joe q.1) :: r.1, r.2)
      | _ =>
          let r := consolidate_children env jn rest reg
          ((n, v) :: r.1, r.2)
    else
      let r := consolidate_children env jn rest reg
      ((n, v) :: r.1, r.2)
termination_by structural fs _ => fs
end

/-! ## Value coercion engine and record construction

The five functions below are mutually recursive in the source
(`deserialize_simple_var`, `deserialize_var`, and — through the
construction of nested records — the dataclass constructor itself).
Recursion depth is bounded by the `fuel` parameter, modelling CPython's
finite call stack (§5 of the behaviour: pathologically deep input exhausts
the stack, an unrecovered fatal condition); a run that terminates in
Python succeeds in the model for every sufficiently large fuel. -/

/-- The result of a call: the raised exception or the returned value,
together with the interpreter state after the call.  State changes made
before an exception was raised persist — exactly as for the mutated
default-argument registry in Python. -/
abbrev DRes (α : Type) := Except JErr α × ConsState

/-- Keyword lookup in `cls(**kwargs)`. -/
def lookupKw (kwargs : List (String × PyVal)) (n : String) : Option PyVal :=
  (kwargs.find? (fun p => p.1 == n)).map Prod.snd

/-- `cls(**inbound_var)`: dict keys become keyword names; a non-string key
makes CPython raise `TypeError: keywords must be strings`. -/
def dictKwargs : List (PyVal × PyVal) → Option (List (String × PyVal))
  | [] => some []
  | (PyVal.str s, v) :: rest => (dictKwargs rest).map (fun r => (s, v) :: r)
  | _ => Option.none

/-- Dataclass `__init__` argument binding: each declared field takes the
supplied keyword or its declared default; a field with neither makes
CPython raise `TypeError` (modelled by `none`). -/
def bind_fields (flds : List JoeField) (kwargs : List (String × PyVal)) :
    Option (List PyVal) :=
  match flds with
  | [] => some []
  | f :: rest =>
      match (lookupKw kwargs f.name).orElse (fun _ => f.dflt) with
      | some raw => (bind_fields rest kwargs).map (fun r => raw :: r)
      | Option.none => Option.none

mutual
/-- `JourneyObject.deserialize_simple_var` (lines 125-214), translated
branch for branch in source order.  The `match inbound_var` cascade of the
source is rendered as one arm per `PyVal` constructor, each running the
guards of the cases that can match that constructor in source order. -/
def deserialize_simple_var (env : Env) :
    Nat → String → PyVal → List PyType → ConsState → DRes PyVal
  | 0, _, _, _, st =>
      (.error (.typeError "maximum recursion depth exceeded"), st)
  | fuel + 1, varname, v, exps, st =>
    match v with
    | PyVal.none =>
        -- line 130: `if inbound_var is None and NoneType in expected_types`
        if hasNoneType exps then (.ok v, st)
        -- a `None` that is not accepted matches no `case` until the
        -- fallback `case _`
        else try_expected_types env fuel varname v exps [] exps st
    | PyVal.bool b =>
        -- line 133: `case bool() if bool in expected_types`
        if hasBool exps then (.ok v, st)
        -- line 135: `case int()` also matches a Boolean (`bool` subclasses
        -- `int`), so a Boolean with `int` accepted is returned unchanged
        else if hasInt exps then (.ok v, st)
        else
          -- lines 137-143 with a Boolean inbound value
          match exps with
          | [PyType.float] => (.ok (PyVal.float (if b then 1 else 0)), st)
          | [PyType.bool] => (.ok v, st)
          | _ => (.error (.fieldParse "" varname v exps), st)
    | PyVal.int n =>
        -- line 135: `case int() if int in expected_types`
        if hasInt exps then (.ok v, st)
        else
          -- lines 137-143: `_warncast` widening (the warning is a side
          -- effect and does not affect the returned value)
          match exps with
          | [PyType.float] => (.ok (PyVal.float (mkRat n 1)), st)
          | [PyType.bool] => (.ok (PyVal.bool (n != 0)), st)
          | _ => (.error (.fieldParse "" varname v exps), st)
    | PyVal.float _ =>
        -- line 144: `case float() if float in expected_types`
        if hasFloat exps then (.ok v, st)
        else
          match exps with
          | [PyType.int] =>
              -- line 148: `self._warncast(varname, float, int)` passes the
              -- *class* `float` where the value belongs and omits the
              -- required `outtype` argument, so CPython raises `TypeError`
              -- before any narrowing or warning can happen
              (.error (.typeError "warncast-missing-outtype"), st)
          | _ => (.error (.fieldParse "" varname v exps), st)
    | PyVal.str s =>
        -- line 151: `case str() if str in expected_types`
        if hasStr exps then (.ok v, st)
        else
          -- lines 158-173: `case str() if not str in expected_types`
          match exps with
          | [PyType.datetime] =>
              -- `datetime.fromisoformat(inbound_var)`; the wrapper records
              -- the text (malformed text raises in Python; no theorem path
              -- parses malformed text)
              (.ok (PyVal.datetime s), st)
          | [PyType.enum e vals] =>
              if vals.contains s then (.ok (PyVal.enumMember e s), st)
              else (.error (.fieldParse "ENUM" varname v exps), st)
          | _ =>
              -- line 172-173: serialized string assumed to be the unique
              -- id of a JOE object, passed through
              (.ok v, st)
    | PyVal.list _ =>
        -- line 153: `case list() if list in expected_types`
        if hasList0 exps then (.ok v, st)
        else try_expected_types env fuel varname v exps [] exps st
    | PyVal.dict kvs =>
        -- line 155: `case dict() if dict in expected_types`
        if hasDict0 exps then (.ok v, st)
        else
          -- lines 174-183 (unguarded `case dict()`): construct the first
          -- expected type that is a `JourneyObject` subclass from the dict
          match exps.find? PyType.isJoeClass with
          | some (PyType.joeClass cname) =>
              match lookupClass env cname with
              | some decl =>
                  match dictKwargs kvs with
                  | some kw =>
                      match construct env fuel decl kw st with
                      | (.ok o, st') => (.ok (PyVal.joe o), st')
                      | (.error e, st') => (.error e, st')
                  | Option.none =>
                      (.error (.typeError "keywords must be strings"), st)
              | Option.none =>
                  -- every `joeClass` names a declared subclass; unreachable
                  (.error (.typeError "unknown subclass"), st)
          | _ => (.error (.fieldParse "DICT:" varname v exps), st)
    | PyVal.tuple _ =>
        -- a tuple matches none of the guarded cases and falls to `case _`
        try_expected_types env fuel varname v exps [] exps st
    | PyVal.datetime _ =>
        -- line 187: `case datetime() if datetime in expected_types`
        if hasDatetime exps then (.ok v, st)
        else try_expected_types env fuel varname v exps [] exps st
    | PyVal.enumMember _ _ =>
        -- line 189 `case EnumMeta()` matches only enum *classes* (an enum
        -- member is not an instance of the metaclass), so a member falls
        -- to the `case _` fallback
        try_expected_types env fuel varname v exps [] exps st
    | PyVal.joe _ =>
        -- line 185: `case JourneyObject()` — any record instance is
        -- returned unchanged
        (.ok v, st)
termination_by structural fuel _ _ _ _ => fuel

/-- The fallback loop of `deserialize_simple_var` (lines 191-214): try each
expected type in order; `exterior None` with a single interior type is an
`isinstance` test, anything else goes through `deserialize_var`; every
caught exception is recorded with its type; when the alternatives are
exhausted the pairs are aggregated into the `FINAL:` failure.  State
changes made by a failed attempt persist (the `except` clause does not
roll back the registry). -/
def try_expected_types (env : Env) :
    Nat → String → PyVal → List PyType → List (PyType × JErr) →
      List PyType → ConsState → DRes PyVal
  | 0, _, _, _, _, _, st =>
      (.error (.typeError "maximum recursion depth exceeded"), st)
  | _ + 1, varname, v, exps, acc, [], st =>
      (.error (.finalAggregate varname v exps acc), st)
  | fuel + 1, varname, v, exps, acc, t :: ts, st =>
    let attempt : DRes PyVal :=
      match decompose_type t with
      | (Option.none, [t0]) =>
          -- lines 197-201
          if pyIsinstance v t0 then (.ok v, st)
          else (.error (.fieldParse "" varname v exps), st)
      | (ext, ints) =>
          -- line 203
          deserialize_var env fuel varname v ext ints st
    match attempt with
    | (.ok pv, st') => (.ok pv, st')
    | (.error e, st') =>
        try_expected_types env fuel varname v exps (acc ++ [(t, e)]) ts st'
termination_by structural fuel _ _ _ _ _ _ => fuel

/-- `JourneyObject.deserialize_var` (lines 216-261), branch for branch. -/
def deserialize_var (env : Env) :
    Nat → String → PyVal → Option Container → List PyType → ConsState →
      DRes PyVal
  | 0, _, _, _, _, st =>
      (.error (.typeError "maximum recursion depth exceeded"), st)
  | fuel + 1, varname, v, ext, ints, st =>
    match ext with
    | Option.none =>
        -- line 217-218: primitive or object expected type
        deserialize_simple_var env fuel varname v ints st
    | some Container.list =>
        match v with
        | PyVal.list xs =>
            -- lines 219-226
            if ints.length = 0 then (.ok v, st)
            else
              match coerce_elems env fuel varname ints 0 xs st with
              | (.ok ys, st') => (.ok (PyVal.list ys), st')
              | (.error e, st') => (.error e, st')
        | _ =>
            -- line 256-257
            (.error (.expectedList varname v), st)
    | some Container.tuple =>
        match v with
        | PyVal.list xs => deserialize_tuple env fuel varname xs ints st
        | PyVal.tuple xs => deserialize_tuple env fuel varname xs ints st
        | _ =>
            -- line 258-259
            (.error (.expectedTuple varname v), st)
    | some Container.dict =>
        match v with
        | PyVal.dict kvs =>
            -- lines 245-253
            if ints.length = 0 then (.ok v, st)
            else if kvs.isEmpty then
              -- the comprehension body never runs on an empty dict
              (.ok (PyVal.dict []), st)
            else
              -- line 250 passes `interior_expected_types[0]` — a bare
              -- class, not a tuple — as `expected_types`, so the first
              -- key's coercion dies at `len(expected_types)` with
              -- `TypeError`; the value side (line 251) would equally fail,
              -- calling `deserialize_var` with a missing argument.  No
              -- key or value is ever coerced.
              (.error (.typeError "len() of class object"), st)
        | _ =>
            -- line 254-255
            (.error (.expectedDict varname v), st)
termination_by structural fuel _ _ _ _ _ => fuel

/-- Element loop shared by the list branch (lines 223-226) and the
single-type tuple branch (lines 231-234): coerce each element against the
given interior types with the indexed variable name, propagating the first
exception (earlier elements' state changes persist). -/
def coerce_elems (env : Env) :
    Nat → String → List PyType → Nat → List PyVal → ConsState →
      DRes (List PyVal)
  | 0, _, _, _, _, st =>
      (.error (.typeError "maximum recursion depth exceeded"), st)
  | _ + 1, _, _, _, [], st => (.ok [], st)
  | fuel + 1, varname, ints, i, x :: xs, st =>
    match deserialize_simple_var env fuel (varname ++ "_" ++ toString i) x
        ints st with
    | (.ok y, st') =>
        match coerce_elems env fuel varname ints (i + 1) xs st' with
        | (.ok ys, st'') => (.ok (y :: ys), st'')
        | (.error e, st'') => (.error e, st'')
    | (.error e, st') => (.error e, st')
termination_by structural fuel _ _ _ _ _ => fuel

/-- The tuple branch of `deserialize_var` (lines 227-244). -/
def deserialize_tuple (env : Env) :
    Nat → String → List PyVal → List PyType → ConsState → DRes PyVal
  | 0, _, _, _, st =>
      (.error (.typeError "maximum recursion depth exceeded"), st)
  | fuel + 1, varname, xs, ints, st =>
    if ints.length = 0 then
      -- line 228-229: `tuple(inbound_var)`
      (.ok (PyVal.tuple xs), st)
    else if ints.length = 1 then
      -- lines 230-234: the single declared type applies to every slot
      match ints with
      | [t0] =>
          match coerce_elems env fuel varname [t0] 0 xs st with
          | (.ok ys, st') => (.ok (PyVal.tuple ys), st')
          | (.error e, st') => (.error e, st')
      | _ => (.error (.typeError "unreachable"), st)
    else if ints.length = xs.length then
      -- lines 235-239: positional element types
      match coerce_tuple_elems env fuel varname 0 xs ints st with
      | (.ok ys, st') => (.ok (PyVal.tuple ys), st')
      | (.error e, st') => (.error e, st')
    else
      -- lines 240-244
      (.error (.tupleLenMismatch varname xs ints), st)
termination_by structural fuel _ _ _ _ => fuel

/-- Positional element loop of the multi-type tuple branch
(lines 236-239). -/
def coerce_tuple_elems (env : Env) :
    Nat → String → Nat → List PyVal → List PyType → ConsState →
      DRes (List PyVal)
  | 0, _, _, _, _, st =>
      (.error (.typeError "maximum recursion depth exceeded"), st)
  | _ + 1, _, _, [], _, st => (.ok [], st)
  | _ + 1, _, _, _ :: _, [], st =>
      -- lengths were checked equal before entry; unreachable
      (.error (.typeError "unreachable"), st)
  | fuel + 1, varname, i, x :: xs, t :: ts, st =>
    match deserialize_simple_var env fuel (varname ++ "_" ++ toString i) x
        [t] st with
    | (.ok y, st') =>
        match coerce_tuple_elems env fuel varname (i + 1) xs ts st' with
        | (.ok ys, st'') => (.ok (y :: ys), st'')
        | (.error e, st'') => (.error e, st'')
    | (.error e, st') => (.error e, st')
termination_by structural fuel _ _ _ _ _ => fuel

/-- The coercion loop of `__post_init__` (lines 265-269): walk the declared
fields in order; for each, resolve the declared type and coerce the bound
raw value, `setattr`-ing the result.  The first exception aborts the
remaining fields. -/
def coerce_fields (env : Env) :
    Nat → List JoeField → List PyVal → ConsState →
      Except JErr (List (String × PyVal)) × ConsState
  | 0, _, _, st =>
      (.error (.typeError "maximum recursion depth exceeded"), st)
  | _ + 1, [], _, st => (.ok [], st)
  | _ + 1, _ :: _, [], st =>
      -- binding produced one raw value per field; unreachable
      (.error (.typeError "unreachable"), st)
  | fuel + 1, f :: flds, raw :: raws, st =>
    let d := decompose_type f.ty
    match deserialize_var env fuel f.name raw d.1 d.2 st with
    | (.ok cv, st') =>
        match coerce_fields env fuel flds raws st' with
        | (.ok rest, st'') => (.ok ((f.name, cv) :: rest), st'')
        | (.error e, st'') => (.error e, st'')
    | (.error e, st') => (.error e, st')
termination_by structural fuel _ _ _ => fuel

/-- Construction of a record instance: `cls(**kwargs)`.  The dataclass
`__init__` binds keywords to fields (unknown keywords and missing
arguments raise `TypeError`), a fresh object identity is allocated, and
`__post_init__` (lines 265-300) runs: coerce every field in declaration
order; the secondary-check loop (lines 272-295) is entirely `pass`-bodied
and has no effect; `self.consolidate_family_tree()` consolidates the
children in place and registers `self` — its return value is discarded
(line 298), so `self` survives even when a structural duplicate is already
registered; finally `self.validate()` runs the checks. -/
def construct (env : Env) :
    Nat → JoeClassDecl → List (String × PyVal) → ConsState → DRes JoeObj
  | 0, _, _, st =>
      (.error (.typeError "maximum recursion depth exceeded"), st)
  | fuel + 1, cls, kwargs, st =>
    if kwargs.all (fun p => cls.fields.any (fun f => f.name == p.1)) then
      match bind_fields cls.fields kwargs with
      | Option.none =>
          (.error (.typeError "missing required positional argument"), st)
      | some raws =>
          let pid := st.nextId
          let st1 : ConsState := ⟨st.registry, st.nextId + 1⟩
          match coerce_fields env fuel cls.fields raws st1 with
          | (.error e, st') => (.error e, st')
          | (.ok coerced, st') =>
              let r := consolidate_family_tree env
                (JoeObj.mk pid cls.name coerced) st'.registry
              let oSelf := r.2.1
              let st'' : ConsState := ⟨r.2.2, st'.nextId⟩
              match validate cls oSelf with
              | .ok _ => (.ok oSelf, st'')
              | .error e => (.error e, st'')
    else (.error (.typeError "unexpected keyword argument"), st)
termination_by structural fuel _ _ _ => fuel
end

/-- `from_json(cls, s) = cls(**json.loads(s))` (lines 392-394) applied to
`I.to_json()`: `json.loads` of the dumped field map is exactly the
serialized field map (`loads ∘ dumps` is the identity on JSON trees), so
decoding the encoded form is construction from the serialized fields. -/
def decode_encode (env : Env) (fuel : Nat) (cls : JoeClassDecl) (o : JoeObj)
    (st : ConsState) : DRes JoeObj :=
  construct env fuel cls (to_json_fields o) st

/-! ## The concrete record types exercised by the theorems

Field lists and validators transcribed from the schema modules
(`joe/model/other.py`, `joe/model/astro/base.py`,
`joe/model/tickets/md.py`).  Every record type of the repository derives
directly from `JourneyObject` and declares `id`, `creation_date` and
`update_date` first (inherited base fields). -/

/-- Shorthand for the annotation `float | None`. -/
def UFloat : PyType := PyType.union [PyType.float, PyType.noneT]

/-- A bounds check `self.f is None or lo <= self.f <= hi` over an
optional-float field, as the `Orbit` validators assert it.  A value that
is neither `None` nor a float would make the Python comparison raise
`TypeError`; either way construction aborts, modelled as `false`. -/
def noneOrBounded (f : String) (lo hi : Rat) : JoeObj → Bool := fun o =>
  match lookupField o f with
  | some PyVal.none => true
  | some (PyVal.float q) => decide (lo ≤ q ∧ q ≤ hi)
  | _ => false

/-- `Company` (`other.py` lines 18-34). -/
def companyDecl : JoeClassDecl where
  name := "Company"
  fields := [
    ⟨"id", PyType.str, Option.none⟩,
    ⟨"creation_date", PyType.datetime, Option.none⟩,
    ⟨"update_date", PyType.datetime, Option.none⟩,
    ⟨"name", PyType.str, Option.none⟩]
  validators := []

/-- `Mission` (`other.py` lines 111-134). -/
def missionDecl : JoeClassDecl where
  name := "Mission"
  fields := [
    ⟨"id", PyType.str, Option.none⟩,
    ⟨"creation_date", PyType.datetime, Option.none⟩,
    ⟨"update_date", PyType.datetime, Option.none⟩,
    ⟨"created_by", PyType.joeClass "Company", Option.none⟩,
    ⟨"name", PyType.str, Option.none⟩,
    ⟨"launch_date", PyType.datetime, Option.none⟩,
    ⟨"amd_enabled", PyType.bool, Option.none⟩]
  validators := []

/-- `Orbit` (`astro/base.py` lines 162-207): six nullable float elements
and four bounds validators, listed here in *declaration* order
(`validate_eccentricity`, `validate_inclination`, `validate_true_anomaly`,
`validate_argument_of_perigee`). -/
def orbitDecl : JoeClassDecl where
  name := "Orbit"
  fields := [
    ⟨"id", PyType.str, Option.none⟩,
    ⟨"creation_date", PyType.datetime, Option.none⟩,
    ⟨"update_date", PyType.datetime, Option.none⟩,
    ⟨"semi_major_axis", UFloat, Option.none⟩,
    ⟨"eccentricity", UFloat, Option.none⟩,
    ⟨"inclination", UFloat, Option.none⟩,
    ⟨"argument_of_perigee", UFloat, Option.none⟩,
    ⟨"raan", UFloat, Option.none⟩,
    ⟨"true_anomaly", UFloat, Option.none⟩]
  validators := [
    ("validate_eccentricity", noneOrBounded "eccentricity" 0 1),
    ("validate_inclination", noneOrBounded "inclination" 0 180),
    ("validate_true_anomaly", noneOrBounded "true_anomaly" 0 360),
    ("validate_argument_of_perigee", noneOrBounded "argument_of_perigee" 0 360)]

/-- `Attitude` (`astro/base.py` lines 245-275): three `list[float]` fields,
no active validators (all are commented out in the source). -/
def attitudeDecl : JoeClassDecl where
  name := "Attitude"
  fields := [
    ⟨"id", PyType.str, Option.none⟩,
    ⟨"creation_date", PyType.datetime, Option.none⟩,
    ⟨"update_date", PyType.datetime, Option.none⟩,
    ⟨"quaternions", PyType.listOf PyType.float, Option.none⟩,
    ⟨"spin", PyType.listOf PyType.float, Option.none⟩,
    ⟨"acceleration", PyType.listOf PyType.float, Option.none⟩]
  validators := []

/-- `PropagationResult` (`tickets/md.py` lines 166-211): every field is a
parameterized list; none is a bare record type, so `joe_children` sees
none of them. -/
def propagationResultDecl : JoeClassDecl where
  name := "PropagationResult"
  fields := [
    ⟨"id", PyType.str, Option.none⟩,
    ⟨"creation_date", PyType.datetime, Option.none⟩,
    ⟨"update_date", PyType.datetime, Option.none⟩,
    ⟨"timestamps", PyType.listOf PyType.datetime, Option.none⟩,
    ⟨"orbits", PyType.listOf (PyType.joeClass "Orbit"), Option.none⟩,
    ⟨"masses", PyType.listOf PyType.float, Option.none⟩,
    ⟨"attitudes", PyType.listOf (PyType.joeClass "Attitude"), Option.none⟩,
    ⟨"lighting_ratios", PyType.listOf PyType.float, Option.none⟩,
    ⟨"thrust_directions", PyType.listOf (PyType.listOf PyType.float), Option.none⟩,
    ⟨"thrust_magnitudes", PyType.listOf PyType.float, Option.none⟩,
    ⟨"delta_v", PyType.listOf PyType.float, Option.none⟩,
    ⟨"total_impulse", PyType.listOf PyType.float, Option.none⟩,
    ⟨"groundstation_events", PyType.listOf PyType.dict0, Option.none⟩,
    ⟨"target_events", PyType.listOf PyType.dict0, Option.none⟩]
  validators := []

/-- The declared record types used by the theorems (a sub-universe of
`JourneyObject.__subclasses__()`; the engine only ever asks whether a
field's annotated class is a subclass, which holds for all of these). -/
def demoEnv : Env :=
  [companyDecl, missionDecl, orbitDecl, attitudeDecl, propagationResultDecl]

/-- The empty starting state: fresh registry, first object identity 0. -/
def st0 : ConsState := ⟨[], 0⟩

/-! ## Concrete payloads used by the claim theorems -/

/-- The §8 `Orbit` scenario keywords: the class's example values with the
eccentricity under test. -/
def orbitScenarioKw (ecc : PyVal) : List (String × PyVal) :=
  [("id", .str "449465be-5533-40ad-9e85-bfa95b0ee39a"),
   ("creation_date", .str "2024-04-04T20:49:02"),
   ("update_date", .str "2024-04-04T20:49:02"),
   ("semi_major_axis", .float 7200),
   ("eccentricity", ecc),
   ("inclination", .float (mkRat 853 10)),
   ("argument_of_perigee", .float (mkRat 629 100)),
   ("raan", .float (mkRat 26074 100)),
   ("true_anomaly", .float 0)]

/-- `Orbit` keywords in which *both* `eccentricity` (declared-first
validator) and `argument_of_perigee` (alphabetically-first validator)
violate their bounds. -/
def orbitBadKw : List (String × PyVal) :=
  [("id", .str "orb-1"),
   ("creation_date", .str "2024-04-04T20:49:02"),
   ("update_date", .str "2024-04-04T20:49:02"),
   ("semi_major_axis", .float 7200),
   ("eccentricity", .float (mkRat 3 2)),
   ("inclination", .float (mkRat 853 10)),
   ("argument_of_perigee", .float (mkRat (-5) 1)),
   ("raan", .float 0),
   ("true_anomaly", .float 0)]

/-- The coerced instance built from `orbitBadKw` (datetimes parsed, floats
unchanged), i.e. the object the validators inspect. -/
def orbitBadObj : JoeObj :=
  JoeObj.mk 0 "Orbit"
    [("id", .str "orb-1"),
     ("creation_date", .datetime "2024-04-04T20:49:02"),
     ("update_date", .datetime "2024-04-04T20:49:02"),
     ("semi_major_axis", .float 7200),
     ("eccentricity", .float (mkRat 3 2)),
     ("inclination", .float (mkRat 853 10)),
     ("argument_of_perigee", .float (mkRat (-5) 1)),
     ("raan", .float 0),
     ("true_anomaly", .float 0)]

/-- The first invariant check that fails when the checks are run in the
order they are declared on the record type — the order §4.3 of the
specification prescribes.  (Stated from the specification's words, for
comparison with the source's `validate`.) -/
def first_failing_declared (cls : JoeClassDecl) (o : JoeObj) : Option String :=
  (cls.validators.find? (fun c => !(c.2 o))).map Prod.fst

/-- The `Attitude` example payload (`astro/base.py` lines 268-275). -/
def attitudeExampleKw : List (String × PyVal) :=
  [("id", .str "449465be-5533-40ad-9e85-bfa95b0ee39a"),
   ("creation_date", .str "2024-04-04T20:49:02"),
   ("update_date", .str "2024-04-04T20:49:02"),
   ("quaternions", .list [.float 0, .float 0, .float 0, .float 0]),
   ("spin", .list [.float 0, .float 0, .float 0]),
   ("acceleration", .list [.float 0])]

/-- The instance `construct` builds from `attitudeExampleKw` in the empty
state. -/
def attitudeObj : JoeObj :=
  JoeObj.mk 0 "Attitude"
    [("id", .str "449465be-5533-40ad-9e85-bfa95b0ee39a"),
     ("creation_date", .datetime "2024-04-04T20:49:02"),
     ("update_date", .datetime "2024-04-04T20:49:02"),
     ("quaternions", .list [.float 0, .float 0, .float 0, .float 0]),
     ("spin", .list [.float 0, .float 0, .float 0]),
     ("acceleration", .list [.float 0])]

/-- An `Attitude` payload as a JSON dict (the shape a nested attitude
arrives in). -/
def attitudeDictKw : PyVal :=
  .dict [(.str "id", .str "att-1"),
         (.str "creation_date", .str "2024-04-04T20:49:02"),
         (.str "update_date", .str "2024-04-04T20:49:02"),
         (.str "quaternions", .list [.float 0, .float 0, .float 0, .float 0]),
         (.str "spin", .list [.float 0, .float 0, .float 0]),
         (.str "acceleration", .list [.float 0])]

/-- A `PropagationResult` payload whose `attitudes` list holds two
structurally identical attitude dicts (mirroring the repository's own
`MultiManeuverTicket.example`, which lists the same `Maneuver.example`
twice). -/
def prExampleKw : List (String × PyVal) :=
  [("id", .str "pr-1"),
   ("creation_date", .str "2024-04-04T20:49:02"),
   ("update_date", .str "2024-04-04T20:49:02"),
   ("timestamps", .list []),
   ("orbits", .list []),
   ("masses", .list []),
   ("attitudes", .list [attitudeDictKw, attitudeDictKw]),
   ("lighting_ratios", .list []),
   ("thrust_directions", .list []),
   ("thrust_magnitudes", .list []),
   ("delta_v", .list []),
   ("total_impulse", .list []),
   ("groundstation_events", .list []),
   ("target_events", .list [])]

/-- The attitude instance built for position 0 of the list (identity 1). -/
def att1Obj : JoeObj :=
  JoeObj.mk 1 "Attitude"
    [("id", .str "att-1"),
     ("creation_date", .datetime "2024-04-04T20:49:02"),
     ("update_date", .datetime "2024-04-04T20:49:02"),
     ("quaternions", .list [.float 0, .float 0, .float 0, .float 0]),
     ("spin", .list [.float 0, .float 0, .float 0]),
     ("acceleration", .list [.float 0])]

/-- The attitude instance built for position 1 of the list (identity 2):
structurally identical to `att1Obj`, a different object. -/
def att2Obj : JoeObj :=
  JoeObj.mk 2 "Attitude"
    [("id", .str "att-1"),
     ("creation_date", .datetime "2024-04-04T20:49:02"),
     ("update_date", .datetime "2024-04-04T20:49:02"),
     ("quaternions", .list [.float 0, .float 0, .float 0, .float 0]),
     ("spin", .list [.float 0, .float 0, .float 0]),
     ("acceleration", .list [.float 0])]

/-! ## C8 — the Orbit eccentricity scenario -/

set_option maxRecDepth 100000 in
/-- **C8**: constructing an `Orbit` with the example field values fails
with a validation error (`AssertionError` from `validate_eccentricity`)
for `eccentricity = 1.5`; succeeds for `eccentricity = None` (the null
short-circuits coercion at line 130 and the validator accepts `None`);
and succeeds for `eccentricity = 0.001`, the coerced field holding the
given value. -/
theorem C8_orbit_eccentricity_scenario :
    (construct demoEnv 100 orbitDecl (orbitScenarioKw (.float (mkRat 3 2)))
        st0).1 = .error (.assertFail "validate_eccentricity") ∧
    ((construct demoEnv 100 orbitDecl (orbitScenarioKw PyVal.none) st0).1.map
        (fun o => lookupField o "eccentricity")) = .ok (some PyVal.none) ∧
    ((construct demoEnv 100 orbitDecl (orbitScenarioKw (.float (mkRat 1 1000)))
        st0).1.map (fun o => lookupField o "eccentricity")) =
      .ok (some (.float (mkRat 1 1000))) := by
  refine ⟨by decide, by decide, by decide⟩

/-! ## C3 — float input for an int-only field -/

/-- **C3** (code bug): a float supplied for a field whose sole accepted
type is `int` does *not* narrow-and-warn; line 148 calls
`self._warncast(varname, float, int)`, passing the class `float` as the
value and omitting the required `outtype` parameter, so CPython raises
`TypeError` and construction aborts. -/
theorem C3_float_for_int_raises_typeerror (env : Env) (fuel : Nat)
    (varname : String) (q : Rat) (st : ConsState) :
    deserialize_simple_var env (fuel + 1) varname (.float q) [PyType.int] st =
      (.error (.typeError "warncast-missing-outtype"), st) := by
  rfl

/-! ## C5 — mapping fields with declared element types -/

/-- **C5** (code bug): coercing a non-empty mapping against a field
declared `dict[K, V]` raises `TypeError` before any key or value is
coerced (line 250 passes a bare class where a tuple of types is expected,
and line 251 calls `deserialize_var` with a missing argument); the
pass-through half of the claim does hold — a mapping field with no
declared element types returns the input unexamined. -/
theorem C5_mapping_coercion (env : Env) (fuel : Nat) (varname : String)
    (kty vty : PyType) (k v : PyVal) (kvs kvs' : List (PyVal × PyVal))
    (st : ConsState) :
    deserialize_var env (fuel + 1) varname (.dict ((k, v) :: kvs))
        (decompose_type (PyType.dictOf kty vty)).1
        (decompose_type (PyType.dictOf kty vty)).2 st =
      (.error (.typeError "len() of class object"), st) ∧
    deserialize_var env (fuel + 1) varname (.dict kvs')
        (decompose_type PyType.dict0).1 (decompose_type PyType.dict0).2 st =
      (.ok (.dict kvs'), st) := by
  constructor
  · rfl
  · rfl

/-! ## C9 — fixed-tuple arity errors -/

/-- **C9**: a sequence supplied for a fixed tuple field with `n ≥ 2`
declared element types and a different length aborts with the arity
failure of line 241, whose payload carries the offending sequence and the
declared element types — hence the expected arity (`ts.length`) and the
actual length (`xs.length`). -/
theorem C9_tuple_arity_mismatch (env : Env) (fuel : Nat) (varname : String)
    (xs : List PyVal) (ts : List PyType) (st : ConsState)
    (h2 : 2 ≤ ts.length) (hne : xs.length ≠ ts.length) :
    deserialize_var env (fuel + 2) varname (.list xs)
        (decompose_type (PyType.tupleOf ts)).1
        (decompose_type (PyType.tupleOf ts)).2 st =
      (.error (.tupleLenMismatch varname xs ts), st) := by
  have h0 : ¬ts.length = 0 := by omega
  have h1 : ¬ts.length = 1 := by omega
  have h3 : ¬ts.length = xs.length := by omega
  simp only [decompose_type, deserialize_var, deserialize_tuple]
  simp [h0, h1, h3]

/-- Witness for C9: a 2-element sequence against a fixed 3-element tuple
field reports the 3 declared types and the 2-element input
(expected = 3, actual = 2). -/
theorem C9_tuple_arity_mismatch_witness :
    deserialize_var [] 7 "position" (.list [.float 1, .float 2])
        (decompose_type (PyType.tupleOf [.float, .float, .float])).1
        (decompose_type (PyType.tupleOf [.float, .float, .float])).2 st0 =
      (.error (.tupleLenMismatch "position" [.float 1, .float 2]
        [.float, .float, .float]), st0) ∧
    ([PyType.float, .float, .float].length = 3 ∧
      [PyVal.float 1, .float 2].length = 2) :=
  ⟨C9_tuple_arity_mismatch [] 5 "position" [.float 1, .float 2]
      [.float, .float, .float] st0 (by decide) (by decide),
    by decide⟩

/-! ## C4 — validator execution order -/

set_option maxRecDepth 100000 in
/-- **C4** (counterexample): with `eccentricity = 1.5` (its validator is
declared first) *and* `argument_of_perigee = -5` both invalid,
construction aborts blaming `validate_argument_of_perigee` — the
alphabetically first check — while running the declared check list in
declared order would blame `validate_eccentricity`.  The checks therefore
do not run in declaration order. -/
theorem C4_counterexample :
    (construct demoEnv 100 orbitDecl orbitBadKw st0).1 =
      .error (.assertFail "validate_argument_of_perigee") ∧
    validate orbitDecl orbitBadObj =
      .error (.assertFail "validate_argument_of_perigee") ∧
    first_failing_declared orbitDecl orbitBadObj =
      some "validate_eccentricity" ∧
    "validate_argument_of_perigee" ≠ "validate_eccentricity" := by
  refine ⟨by decide, by decide, by decide, by decide⟩

/-- Fail-fast run of a check list whose sorted form splits as
`pre ++ (nm, p) :: post` with every `pre` check passing. -/
theorem runChecks_first_failure (o : JoeObj) (nm : String)
    (p : JoeObj → Bool) :
    ∀ (pre post : List (String × (JoeObj → Bool))),
      (∀ c ∈ pre, c.2 o = true) → p o = false →
      runChecks o (pre ++ (nm, p) :: post) = .error (.assertFail nm) := by
  intro pre
  induction pre with
  | nil =>
      intro post _ hfail
      simp [runChecks, hfail]
  | cons c cs ih =>
      intro post hpre hfail
      have hc : c.2 o = true := hpre c (by simp)
      obtain ⟨cn, cp⟩ := c
      simp only [List.cons_append, runChecks]
      simp only at hc
      rw [hc]
      simp only [if_true]
      exact ih post (fun d hd => hpre d (by simp [hd])) hfail

/-- **C4** (amended): after coercion the invariant checks run in
*alphabetical* order of their `validate_*` method names (the order
`dir(self)` reports), not declaration order; the first failing check
aborts with an `AssertionError` naming that check and no later check
runs (the conclusion does not depend on `post`); a record type with zero
checks always passes. -/
theorem C4_amended_alphabetical_fail_fast (cls : JoeClassDecl) (o : JoeObj) :
    (cls.validators = [] → validate cls o = .ok ()) ∧
    (∀ (pre post : List (String × (JoeObj → Bool))) (nm : String)
        (p : JoeObj → Bool),
      sortValidators cls.validators = pre ++ (nm, p) :: post →
      (∀ c ∈ pre, c.2 o = true) → p o = false →
      validate cls o = .error (.assertFail nm)) := by
  constructor
  · intro h
    simp [validate, h, sortValidators, runChecks]
  · intro pre post nm p hsort hpre hfail
    unfold validate
    rw [hsort]
    exact runChecks_first_failure o nm p pre post hpre hfail

/-- Witness for the amended C4: on `orbitBadObj` the alphabetically first
check `validate_argument_of_perigee` fails with every earlier (none)
check passing, and `validate` indeed reports it. -/
theorem C4_amended_witness :
    validate orbitDecl orbitBadObj =
      .error (.assertFail "validate_argument_of_perigee") := by
  have h := (C4_amended_alphabetical_fail_fast orbitDecl orbitBadObj).2
    [] [("validate_eccentricity", noneOrBounded "eccentricity" 0 1),
        ("validate_inclination", noneOrBounded "inclination" 0 180),
        ("validate_true_anomaly", noneOrBounded "true_anomaly" 0 360)]
    "validate_argument_of_perigee" (noneOrBounded "argument_of_perigee" 0 360)
  exact h rfl (by simp) (by decide)

/-! ## C2 — encode/decode round trip (counterexample) -/

set_option maxRecDepth 100000 in
/-- **C2** (counterexample): `attitudeObj` is a genuinely constructed
instance (first conjunct), its fields are primitives, timestamps and
`list[float]` values — zero record-nesting levels deep — yet decoding its
encoded form aborts: the encoder double-encodes the `quaternions` list
into the JSON *string* sub-document that `to_json` emits, and the decoder
rejects a string where a list is declared (line 256).  The round trip
does not yield an equal instance for every field shape. -/
theorem C2_counterexample :
    (construct demoEnv 100 attitudeDecl attitudeExampleKw st0).1 =
      .ok attitudeObj ∧
    (decode_encode demoEnv 100 attitudeDecl attitudeObj
        ⟨[attitudeObj], 1⟩).1 =
      .error (.expectedList "quaternions"
        (.str "[float(0/1), float(0/1), float(0/1), float(0/1)]")) := by
  refine ⟨by decide, by decide⟩

/-! ## C1 — consolidation dedup (counterexample) -/

set_option maxRecDepth 400000 in
/-- **C1** (counterexample): a constructed `PropagationResult` whose
`attitudes` list was built from two structurally identical payloads holds,
after consolidation has run at the end of construction, two *distinct*
instances (`att1Obj` with identity 1, `att2Obj` with identity 2) that are
structurally equal — both under the encoder-output oracle (`joe_eq`) and
under the operative dataclass-generated `==` (`pyObjEq`, in both
directions).  Positions inside list fields are never consolidated —
`joe_children` only selects fields whose declared type is itself a
record class — so the claim fails for such graphs. -/
theorem C1_counterexample :
    ((construct demoEnv 100 propagationResultDecl prExampleKw st0).1.map
        (fun o => lookupField o "attitudes")) =
      .ok (some (.list [.joe att1Obj, .joe att2Obj])) ∧
    joe_eq att1Obj att2Obj = true ∧
    pyObjEq att1Obj att2Obj = true ∧ pyObjEq att2Obj att1Obj = true ∧
    att1Obj ≠ att2Obj := by
  refine ⟨by decide, by decide, by decide, by decide, by decide⟩

/-! ## C6 — aggregation of union-fallback failures -/

/-- One attempt of the fallback loop (lines 195-204), factored out for the
statement of C6: the `isinstance` shortcut for a plain single type, and
`deserialize_var` otherwise. -/
def try_one (env : Env) (fuel : Nat) (varname : String) (v : PyVal)
    (exps : List PyType) (t : PyType) (st : ConsState) : DRes PyVal :=
  match decompose_type t with
  | (Option.none, [t0]) =>
      if pyIsinstance v t0 then (.ok v, st)
      else (.error (.fieldParse "" varname v exps), st)
  | (ext, ints) => deserialize_var env fuel varname v ext ints st

theorem try_expected_types_nil (env : Env) (fuel : Nat) (varname : String)
    (v : PyVal) (exps : List PyType) (acc : List (PyType × JErr))
    (st : ConsState) :
    try_expected_types env (fuel + 1) varname v exps acc [] st =
      (.error (.finalAggregate varname v exps acc), st) := rfl

theorem try_expected_types_cons (env : Env) (fuel : Nat) (varname : String)
    (v : PyVal) (exps : List PyType) (acc : List (PyType × JErr))
    (t : PyType) (ts : List PyType) (st : ConsState) :
    try_expected_types env (fuel + 1) varname v exps acc (t :: ts) st =
      (match try_one env fuel varname v exps t st with
       | (.ok pv, st') => (.ok pv, st')
       | (.error e, st') =>
          try_expected_types env fuel varname v exps (acc ++ [(t, e)]) ts st') :=
  rfl

/-- **C6**: whenever the fallback loop fails against every alternative
(i.e. it returns an error without exhausting the recursion bound), that
error is the single aggregated `FINAL:` failure, carrying one pair per
attempted alternative in attempt order — each alternative paired with the
exception its own attempt raised. -/
theorem C6_union_fallback_aggregates (env : Env) :
    ∀ (alts : List PyType) (fuel : Nat) (varname : String) (v : PyVal)
      (exps : List PyType) (acc : List (PyType × JErr)) (st st' : ConsState)
      (e : JErr),
      alts.length < fuel →
      try_expected_types env fuel varname v exps acc alts st =
        (.error e, st') →
      ∃ pairs : List (PyType × JErr),
        e = .finalAggregate varname v exps (acc ++ pairs) ∧
        pairs.map Prod.fst = alts ∧
        ∀ pr ∈ pairs, ∃ f st1 st2,
          try_one env f varname v exps pr.1 st1 = (.error pr.2, st2) := by
  intro alts
  induction alts with
  | nil =>
      intro fuel varname v exps acc st st' e hfuel hrun
      obtain ⟨f, rfl⟩ : ∃ f, fuel = f + 1 := ⟨fuel - 1, by omega⟩
      rw [try_expected_types_nil] at hrun
      refine ⟨[], ?_, rfl, by simp⟩
      have h1 : Except.error (ε := JErr) (α := PyVal)
          (.finalAggregate varname v exps acc) = .error e :=
        congrArg Prod.fst hrun
      cases h1
      simp
  | cons t ts ih =>
      intro fuel varname v exps acc st st' e hfuel hrun
      obtain ⟨f, rfl⟩ : ∃ f, fuel = f + 1 := ⟨fuel - 1, by omega⟩
      rw [try_expected_types_cons] at hrun
      cases hattempt : try_one env f varname v exps t st with
      | mk r st1 =>
          cases r with
          | ok pv => rw [hattempt] at hrun; cases hrun
          | error e1 =>
              rw [hattempt] at hrun
              simp only at hrun
              obtain ⟨pairs, he, hmap, hall⟩ :=
                ih f varname v exps (acc ++ [(t, e1)]) st1 st' e
                  (by simp at hfuel ⊢; omega) hrun
              refine ⟨(t, e1) :: pairs, ?_, by simp [hmap], ?_⟩
              · rw [he]; simp
              · intro pr hpr
                rcases List.mem_cons.mp hpr with h | h
                · exact ⟨f, st, st1, h ▸ hattempt⟩
                · exact hall pr h

/-- Witness for C6: `None` coerced against alternatives `(int, str)` fails
both attempts, and the aggregate error pairs each alternative with its own
failure, in attempt order. -/
theorem C6_union_fallback_witness :
    (([PyType.int, PyType.str] : List PyType).length < 5 ∧
      try_expected_types [] 5 "x" PyVal.none [PyType.int, PyType.str] []
          [PyType.int, PyType.str] st0 =
        (.error (.finalAggregate "x" PyVal.none [PyType.int, PyType.str]
          [(PyType.int, .fieldParse "" "x" PyVal.none [PyType.int, PyType.str]),
           (PyType.str, .fieldParse "" "x" PyVal.none
             [PyType.int, PyType.str])]), st0)) ∧
    (∃ pairs : List (PyType × JErr),
      (JErr.finalAggregate "x" PyVal.none [PyType.int, PyType.str]
        [(PyType.int, .fieldParse "" "x" PyVal.none [PyType.int, PyType.str]),
         (PyType.str, .fieldParse "" "x" PyVal.none [PyType.int, PyType.str])]) =
        .finalAggregate "x" PyVal.none [PyType.int, PyType.str] ([] ++ pairs) ∧
      pairs.map Prod.fst = [PyType.int, PyType.str] ∧
      ∀ pr ∈ pairs, ∃ f st1 st2,
        try_one [] f "x" PyVal.none [PyType.int, PyType.str] pr.1 st1 =
          (.error pr.2, st2)) :=
  ⟨⟨by decide, by decide⟩,
    C6_union_fallback_aggregates [] [PyType.int, PyType.str] 5 "x" PyVal.none
      [PyType.int, PyType.str] [] st0 st0 _ (by decide) (by decide)⟩

/-! ## C7 — idempotence on already-typed values -/

/-- The claim's hypothesis, under Python's runtime-type semantics: the
inbound value is already an instance of one of the accepted class objects
(a Boolean is also an instance of `int`, since `bool` subclasses `int`;
an enum member is an instance of its own enum class; a record instance of
its own record class). -/
def accepted_typed (v : PyVal) (exps : List PyType) : Prop :=
  match v with
  | .bool _ => hasBool exps = true ∨ hasInt exps = true
  | .int _ => hasInt exps = true
  | .float _ => hasFloat exps = true
  | .str _ => hasStr exps = true
  | .list _ => hasList0 exps = true
  | .dict _ => hasDict0 exps = true
  | .datetime _ => hasDatetime exps = true
  | .tuple _ => False
  | .enumMember e _ => ∃ vals, PyType.enum e vals ∈ exps
  | .joe o => ∃ n, PyType.joeClass n ∈ exps ∧ o.cls = n
  | .none => False

/-- An enum member falls through to the fallback loop; every alternative
before its own enum class either fails with the state untouched or — for
an enum class of the same name — returns the member unchanged, so the
loop returns the member unchanged once the matching class is reached. -/
theorem enum_member_fallback (env : Env) (varname : String) (e val : String)
    (exps : List PyType) :
    ∀ (alts : List PyType) (fuel : Nat) (acc : List (PyType × JErr))
      (st : ConsState),
      (∃ vals, PyType.enum e vals ∈ alts) →
      (∀ ts, PyType.union ts ∉ alts) →
      alts.length + 1 ≤ fuel →
      try_expected_types env fuel varname (.enumMember e val) exps acc alts
        st = (.ok (.enumMember e val), st) := by
  intro alts
  induction alts with
  | nil => intro fuel acc st hmem; simp at hmem
  | cons t ts ih =>
      intro fuel acc st hmem hflat hfuel
      obtain ⟨f, rfl⟩ : ∃ f, fuel = f + 1 := ⟨fuel - 1, by omega⟩
      rw [try_expected_types_cons]
      have hrec : ∀ e1,
          try_one env f varname (.enumMember e val) exps t st =
            (.error e1, st) →
          try_expected_types env f varname (.enumMember e val) exps
            (acc ++ [(t, e1)]) ts st = (.ok (.enumMember e val), st) := by
        intro e1 h1
        apply ih f
        · obtain ⟨vals, hv⟩ := hmem
          rcases List.mem_cons.mp hv with h | h
          · subst h
            exfalso
            simp [try_one, decompose_type, pyIsinstance] at h1
          · exact ⟨vals, h⟩
        · intro us hu
          exact hflat us (by simp [hu])
        · simp at hfuel ⊢; omega
      cases t with
      | enum e' vals' =>
          by_cases he : e = e'
          · subst he
            simp [try_one, decompose_type, pyIsinstance]
          · have h1 : try_one env f varname (.enumMember e val) exps
                (.enum e' vals') st =
                (.error (.fieldParse "" varname (.enumMember e val) exps),
                  st) := by
              simp [try_one, decompose_type, pyIsinstance, he]
            rw [h1]
            simp only
            exact hrec _ h1
      | union us => exact absurd (by simp) (hflat us)
      | listOf t' =>
          cases f with
          | zero => simp at hfuel
          | succ f' =>
              have h1 : try_one env (f' + 1) varname (.enumMember e val) exps
                  (.listOf t') st =
                  (.error (.expectedList varname (.enumMember e val)), st) :=
                rfl
              rw [h1]; exact hrec _ h1
      | tupleOf ts' =>
          cases f with
          | zero => simp at hfuel
          | succ f' =>
              have h1 : try_one env (f' + 1) varname (.enumMember e val) exps
                  (.tupleOf ts') st =
                  (.error (.expectedTuple varname (.enumMember e val)), st) :=
                rfl
              rw [h1]; exact hrec _ h1
      | dictOf k v =>
          cases f with
          | zero => simp at hfuel
          | succ f' =>
              have h1 : try_one env (f' + 1) varname (.enumMember e val) exps
                  (.dictOf k v) st =
                  (.error (.expectedDict varname (.enumMember e val)), st) :=
                rfl
              rw [h1]; exact hrec _ h1
      | list0 =>
          cases f with
          | zero => simp at hfuel
          | succ f' =>
              have h1 : try_one env (f' + 1) varname (.enumMember e val) exps
                  .list0 st =
                  (.error (.expectedList varname (.enumMember e val)), st) :=
                rfl
              rw [h1]; exact hrec _ h1
      | tuple0 =>
          cases f with
          | zero => simp at hfuel
          | succ f' =>
              have h1 : try_one env (f' + 1) varname (.enumMember e val) exps
                  .tuple0 st =
                  (.error (.expectedTuple varname (.enumMember e val)), st) :=
                rfl
              rw [h1]; exact hrec _ h1
      | dict0 =>
          cases f with
          | zero => simp at hfuel
          | succ f' =>
              have h1 : try_one env (f' + 1) varname (.enumMember e val) exps
                  .dict0 st =
                  (.error (.expectedDict varname (.enumMember e val)), st) :=
                rfl
              rw [h1]; exact hrec _ h1
      | bool =>
          have h1 : try_one env f varname (.enumMember e val) exps .bool st =
              (.error (.fieldParse "" varname (.enumMember e val) exps), st) :=
            rfl
          rw [h1]; exact hrec _ h1
      | int =>
          have h1 : try_one env f varname (.enumMember e val) exps .int st =
              (.error (.fieldParse "" varname (.enumMember e val) exps), st) :=
            rfl
          rw [h1]; exact hrec _ h1
      | float =>
          have h1 : try_one env f varname (.enumMember e val) exps .float st =
              (.error (.fieldParse "" varname (.enumMember e val) exps), st) :=
            rfl
          rw [h1]; exact hrec _ h1
      | str =>
          have h1 : try_one env f varname (.enumMember e val) exps .str st =
              (.error (.fieldParse "" varname (.enumMember e val) exps), st) :=
            rfl
          rw [h1]; exact hrec _ h1
      | datetime =>
          have h1 : try_one env f varname (.enumMember e val) exps .datetime
              st =
              (.error (.fieldParse "" varname (.enumMember e val) exps), st) :=
            rfl
          rw [h1]; exact hrec _ h1
      | noneT =>
          have h1 : try_one env f varname (.enumMember e val) exps .noneT st =
              (.error (.fieldParse "" varname (.enumMember e val) exps), st) :=
            rfl
          rw [h1]; exact hrec _ h1
      | joeClass n =>
          have h1 : try_one env f varname (.enumMember e val) exps
              (.joeClass n) st =
              (.error (.fieldParse "" varname (.enumMember e val) exps), st) :=
            rfl
          rw [h1]; exact hrec _ h1

/-- **C7**: coercing a value that is already an instance of one of the
accepted types (Boolean, integer, float, text, list, mapping, timestamp,
enum member or record instance — with Python's `bool ≤ int` subtyping)
returns the value unchanged, with the interpreter state untouched.  The
accepted types are the flattened alternatives of a declared annotation,
so none of them is itself a union. -/
theorem C7_idempotent_on_typed_values (env : Env) (fuel : Nat)
    (varname : String) (v : PyVal) (exps : List PyType) (st : ConsState)
    (hflat : ∀ ts, PyType.union ts ∉ exps)
    (hacc : accepted_typed v exps)
    (hfuel : exps.length + 2 ≤ fuel) :
    deserialize_simple_var env fuel varname v exps st = (.ok v, st) := by
  obtain ⟨f, rfl⟩ : ∃ f, fuel = f + 1 := ⟨fuel - 1, by omega⟩
  cases v with
  | none => exact absurd hacc (by simp [accepted_typed])
  | bool b =>
      simp only [accepted_typed] at hacc
      rcases hacc with h | h
      · simp [deserialize_simple_var, h]
      · by_cases hb : hasBool exps
        · simp [deserialize_simple_var, hb]
        · simp [deserialize_simple_var, hb, h]
  | int n =>
      simp only [accepted_typed] at hacc
      simp [deserialize_simple_var, hacc]
  | float q =>
      simp only [accepted_typed] at hacc
      simp [deserialize_simple_var, hacc]
  | str s =>
      simp only [accepted_typed] at hacc
      simp [deserialize_simple_var, hacc]
  | list xs =>
      simp only [accepted_typed] at hacc
      simp [deserialize_simple_var, hacc]
  | dict kvs =>
      simp only [accepted_typed] at hacc
      simp [deserialize_simple_var, hacc]
  | tuple xs => exact absurd hacc (by simp [accepted_typed])
  | datetime s =>
      simp only [accepted_typed] at hacc
      simp [deserialize_simple_var, hacc]
  | joe o => simp [deserialize_simple_var]
  | enumMember e val =>
      simp only [accepted_typed] at hacc
      have hstep : deserialize_simple_var env (f + 1) varname
          (.enumMember e val) exps st =
          try_expected_types env f varname (.enumMember e val) exps [] exps
            st := rfl
      rw [hstep]
      exact enum_member_fallback env varname e val exps exps f [] st hacc
        hflat (by omega)

/-- Witness for C7: the already-resolved enum member
`GravityModel.EIGEN6S` coerced against its own enum class comes back
unchanged. -/
theorem C7_idempotent_witness :
    ((∀ ts, PyType.union ts ∉
        [PyType.enum "GravityModel"
          ["EIGEN-6S", "GGM02C", "GGM03S", "GGM03C"]]) ∧
      accepted_typed (.enumMember "GravityModel" "EIGEN-6S")
        [PyType.enum "GravityModel"
          ["EIGEN-6S", "GGM02C", "GGM03S", "GGM03C"]] ∧
      ([PyType.enum "GravityModel"
          ["EIGEN-6S", "GGM02C", "GGM03S", "GGM03C"]] : List PyType).length
        + 2 ≤ 4) ∧
    deserialize_simple_var [] 4 "gravity_model"
        (.enumMember "GravityModel" "EIGEN-6S")
        [PyType.enum "GravityModel" ["EIGEN-6S", "GGM02C", "GGM03S", "GGM03C"]]
        st0 =
      (.ok (.enumMember "GravityModel" "EIGEN-6S"), st0) :=
  ⟨⟨by intro ts h; simp at h,
    ⟨["EIGEN-6S", "GGM02C", "GGM03S", "GGM03C"], by simp⟩, by decide⟩,
    C7_idempotent_on_typed_values [] 4 "gravity_model"
      (.enumMember "GravityModel" "EIGEN-6S")
      [PyType.enum "GravityModel" ["EIGEN-6S", "GGM02C", "GGM03S", "GGM03C"]]
      st0 (by intro ts h; simp at h)
      ⟨["EIGEN-6S", "GGM02C", "GGM03S", "GGM03C"], by simp⟩ (by decide)⟩

/-! ## C1 — consolidation across record-typed fields (amended, general) -/

/-- The record-instance children of `o`: values of `joe_children` fields
(declared record type) that hold instances rather than id strings. -/
def joeChildVals (env : Env) (o : JoeObj) : List JoeObj :=
  o.fields.filterMap (fun p =>
    if p.1 ∈ joeFieldNames env o.cls then
      match p.2 with
      | PyVal.joe child => some child
      | _ => Option.none
    else Option.none)

theorem mem_joeChildVals_iff (env : Env) (o : JoeObj) (c : JoeObj) :
    c ∈ joeChildVals env o ↔
      ∃ p ∈ o.fields, p.1 ∈ joeFieldNames env o.cls ∧ p.2 = PyVal.joe c := by
  unfold joeChildVals
  rw [List.mem_filterMap]
  constructor
  · rintro ⟨p, hp, hf⟩
    by_cases hjn : p.1 ∈ joeFieldNames env o.cls
    · simp only [hjn, if_true] at hf
      cases hv : p.2 <;> rw [hv] at hf <;> simp at hf
      exact ⟨p, hp, hjn, by rw [hv, hf]⟩
    · simp [hjn] at hf
  · rintro ⟨p, hp, hjn, hv⟩
    exact ⟨p, hp, by simp [hjn, hv]⟩

theorem contains_iff_mem (s : String) (l : List String) :
    l.contains s = true ↔ s ∈ l := by
  induction l with
  | nil => simp
  | cons a l ih =>
      simp only [List.contains_cons, Bool.or_eq_true, beq_iff_eq, ih,
        List.mem_cons]

/-- Reduction of the child loop at a declared-record-field entry holding
an instance. -/
theorem consolidate_children_cons_joe (env : Env) (jn : List String)
    (nm : String) (child : JoeObj) (rest : List (String × PyVal))
    (reg : List JoeObj) (hjn : jn.contains nm = true) :
    consolidate_children env jn ((nm, PyVal.joe child) :: rest) reg
      = ((nm, PyVal.joe (consolidate_family_tree env child reg).1) ::
          (consolidate_children env jn rest
            (consolidate_family_tree env child reg).2.2).1,
         (consolidate_children env jn rest
           (consolidate_family_tree env child reg).2.2).2) := by
  conv_lhs => unfold consolidate_children
  rw [if_pos hjn]

/-- Reduction of the child loop at an entry that holds no instance: the
entry passes through whether or not its name is a `joe_children` name. -/
theorem consolidate_children_cons_of_not_joe (env : Env)
    (jn : List String) (nm : String) (v : PyVal)
    (rest : List (String × PyVal)) (reg : List JoeObj)
    (hv : ∀ c : JoeObj, v ≠ PyVal.joe c) :
    consolidate_children env jn ((nm, v) :: rest) reg
      = ((nm, v) :: (consolidate_children env jn rest reg).1,
         (consolidate_children env jn rest reg).2) := by
  cases hjn : jn.contains nm with
  | true =>
      conv_lhs => unfold consolidate_children
      rw [if_pos hjn]
      cases v
      case joe c => exact absurd rfl (hv c)
      all_goals rfl
  | false =>
      conv_lhs => unfold consolidate_children
      rw [if_neg (by rw [hjn]; exact Bool.false_ne_true)]

/-- Reduction of the child loop at an entry whose name is not a
`joe_children` name. -/
theorem consolidate_children_cons_skip (env : Env) (jn : List String)
    (nm : String) (v : PyVal) (rest : List (String × PyVal))
    (reg : List JoeObj) (hjn : jn.contains nm = false) :
    consolidate_children env jn ((nm, v) :: rest) reg
      = ((nm, v) :: (consolidate_children env jn rest reg).1,
         (consolidate_children env jn rest reg).2) := by
  conv_lhs => unfold consolidate_children
  rw [if_neg (by rw [hjn]; exact Bool.false_ne_true)]

/-- The invariant `consolidate_family_tree` maintains on its registry:
every member is a constructible value, no member matched any earlier
member when its own insertion scan ran (so the first structural match
for a member is the member itself), and every member's record-typed
children are themselves members (children are consolidated before their
parent registers). -/
def RegGood (env : Env) (reg : List JoeObj) : Prop :=
  (∀ m ∈ reg, wfObj m = true) ∧
  reg.Pairwise (fun a b => pyObjEq b a = false) ∧
  ∀ m ∈ reg, ∀ c ∈ joeChildVals env m, c ∈ reg

/-- `j` is reachable from `o` through record-typed field positions. -/
inductive Occurs (env : Env) : JoeObj → JoeObj → Prop where
  | refl (o : JoeObj) : Occurs env o o
  | step (o c j : JoeObj) :
      c ∈ joeChildVals env o → Occurs env j c → Occurs env j o

/-- `j` occupies a *nested* record-typed position of `o` (depth ≥ 1). -/
def OccursNested (env : Env) (j o : JoeObj) : Prop :=
  ∃ c ∈ joeChildVals env o, Occurs env j c

/-- In a registry in which no member's insertion scan matched an earlier
member, the first `==` match for a member is the member itself. -/
theorem find_first_self (j : JoeObj) :
    ∀ (reg : List JoeObj),
      reg.Pairwise (fun a b => pyObjEq b a = false) →
      j ∈ reg → pyObjEq j j = true →
      reg.find? (fun e => pyObjEq j e) = some j := by
  intro reg
  induction reg with
  | nil => intro _ h _; simp at h
  | cons a l ih =>
      intro hp hm hrefl
      rcases List.mem_cons.mp hm with rfl | hm'
      · exact List.find?_cons_of_pos _ hrefl
      · have ha : pyObjEq j a = false := (List.pairwise_cons.mp hp).1 j hm'
        rw [List.find?_cons_of_neg _ (by simp [ha])]
        exact ih (List.pairwise_cons.mp hp).2 hm' hrefl

/-- Everything reachable from a registry member is a registry member. -/
theorem occurs_mem_of_regGood (env : Env) (R : List JoeObj)
    (hg : RegGood env R) :
    ∀ j x, Occurs env j x → x ∈ R → j ∈ R := by
  intro j x hocc
  induction hocc with
  | refl o => exact id
  | step o c j hc _ ih => intro ho; exact ih (hg.2.2 o ho c hc)

/-- Two members of a pairwise-related list are equal or related one way
or the other (no symmetry of the relation assumed). -/
theorem pairwise_mem_cases {α : Type _} {r : α → α → Prop} :
    ∀ {l : List α}, l.Pairwise r → ∀ {x y : α}, x ∈ l → y ∈ l →
      x = y ∨ r x y ∨ r y x := by
  intro l hp
  induction hp with
  | nil => intro x y hx _; simp at hx
  | cons hr _ ih =>
      intro x y hx hy
      rcases List.mem_cons.mp hx with rfl | hx' <;>
        rcases List.mem_cons.mp hy with rfl | hy'
      · exact Or.inl rfl
      · exact Or.inr (Or.inl (hr y hy'))
      · exact Or.inr (Or.inr (hr x hx'))
      · exact ih hx' hy'

/-- Two distinct registry members are never mutually `==`-equal. -/
theorem regGood_eq_both (env : Env) (R : List JoeObj)
    (hg : RegGood env R) {j1 j2 : JoeObj} (h1 : j1 ∈ R) (h2 : j2 ∈ R)
    (e12 : pyObjEq j1 j2 = true) (e21 : pyObjEq j2 j1 = true) :
    j1 = j2 := by
  rcases pairwise_mem_cases hg.2.1 h1 h2 with h | h | h
  · exact h
  · rw [h] at e21; cases e21
  · rw [h] at e12; cases e12

/-- Combined induction for the consolidator: the registry grows by
appending only, stays well-formed, the returned instance is registered,
and the mutated `self` keeps its class, is itself a constructible value,
and has all its record-typed children registered; correspondingly for
the child loop. -/
theorem cft_main (env : Env) : ∀ (n : Nat),
    (∀ (o : JoeObj), sizeOf o ≤ n → wfObj o = true →
      ∀ (reg : List JoeObj), RegGood env reg →
      reg <+: (consolidate_family_tree env o reg).2.2 ∧
      RegGood env (consolidate_family_tree env o reg).2.2 ∧
      (consolidate_family_tree env o reg).1 ∈
        (consolidate_family_tree env o reg).2.2 ∧
      (consolidate_family_tree env o reg).2.1.cls = o.cls ∧
      (∀ c ∈ joeChildVals env (consolidate_family_tree env o reg).2.1,
        c ∈ (consolidate_family_tree env o reg).2.2) ∧
      wfObj (consolidate_family_tree env o reg).2.1 = true) ∧
    (∀ (jn : List String) (fs : List (String × PyVal)), sizeOf fs ≤ n →
      wfFields fs = true →
      ∀ (reg : List JoeObj), RegGood env reg →
      reg <+: (consolidate_children env jn fs reg).2 ∧
      RegGood env (consolidate_children env jn fs reg).2 ∧
      (∀ p ∈ (consolidate_children env jn fs reg).1, jn.contains p.1 = true →
        ∀ c, p.2 = PyVal.joe c →
          c ∈ (consolidate_children env jn fs reg).2) ∧
      wfFields (consolidate_children env jn fs reg).1 = true) := by
  intro n
  induction n using Nat.strong_induction_on with
  | _ n IH =>
    constructor
    · intro o hsz hwf reg hgood
      obtain ⟨pid, cl, fs⟩ := o
      have hfs : sizeOf fs < n := by simp at hsz; omega
      have hwfs : wfFields fs = true := hwf
      have hch := (IH (sizeOf fs) hfs).2 (joeFieldNames env cl) fs le_rfl
        hwfs reg hgood
      simp only [consolidate_family_tree]
      cases hfind : (consolidate_children env (joeFieldNames env cl) fs
          reg).2.find? (fun e => pyObjEq (JoeObj.mk pid cl
            (consolidate_children env (joeFieldNames env cl) fs reg).1) e) with
      | some e =>
          simp only [hfind]
          refine ⟨hch.1, hch.2.1, List.mem_of_find?_eq_some hfind, rfl, ?_,
            hch.2.2.2⟩
          intro c hc
          rw [mem_joeChildVals_iff] at hc
          obtain ⟨p, hp, hjn, hv⟩ := hc
          exact hch.2.2.1 p hp (by simpa using hjn) c hv
      | none =>
          simp only [hfind]
          have hnotin : ∀ e ∈ (consolidate_children env (joeFieldNames env cl)
              fs reg).2,
              pyObjEq (JoeObj.mk pid cl
                (consolidate_children env (joeFieldNames env cl) fs reg).1) e
                = false := by
            intro e he
            have := List.find?_eq_none.mp hfind e he
            simpa using this
          have hchmem : ∀ c ∈ joeChildVals env (JoeObj.mk pid cl
              (consolidate_children env (joeFieldNames env cl) fs reg).1),
              c ∈ (consolidate_children env (joeFieldNames env cl) fs
                reg).2 := by
            intro c hc
            rw [mem_joeChildVals_iff] at hc
            obtain ⟨p, hp, hjn, hv⟩ := hc
            exact hch.2.2.1 p hp ((contains_iff_mem _ _).mpr hjn) c hv
          refine ⟨hch.1.trans (List.prefix_append _ _), ?_, by simp, rfl, ?_,
            hch.2.2.2⟩
          · refine ⟨?_, ?_, ?_⟩
            · intro m hm
              rcases List.mem_append.mp hm with hm' | hm'
              · exact hch.2.1.1 m hm'
              · rw [List.mem_singleton] at hm'
                subst hm'
                exact hch.2.2.2
            · rw [List.pairwise_append]
              refine ⟨hch.2.1.2.1, by simp, ?_⟩
              intro a ha b hb
              rw [List.mem_singleton] at hb
              subst hb
              exact hnotin a ha
            · intro m hm c hc
              rcases List.mem_append.mp hm with hm' | hm'
              · exact List.mem_append_left _ (hch.2.1.2.2 m hm' c hc)
              · rw [List.mem_singleton] at hm'
                subst hm'
                exact List.mem_append_left _ (hchmem c hc)
          · intro c hc
            exact List.mem_append_left _ (hchmem c hc)
    · intro jn fs hsz hwff reg hgood
      match fs with
      | [] =>
          simp only [consolidate_children]
          exact ⟨List.prefix_refl _, hgood, by simp, rfl⟩
      | (nm, v) :: rest =>
          have hsplit : wfVal v = true ∧ wfFields rest = true := by
            simpa [wfFields, Bool.and_eq_true] using hwff
          by_cases hjoe : ∃ c : JoeObj, v = PyVal.joe c
          · obtain ⟨child, rfl⟩ := hjoe
            have hwchild : wfObj child = true := hsplit.1
            by_cases hjn : jn.contains nm = true
            · have hc : sizeOf child < n := by simp at hsz; omega
              have h1 := (IH (sizeOf child) hc).1 child le_rfl hwchild reg
                hgood
              have hrest : sizeOf rest < n := by simp at hsz; omega
              have h2 := (IH (sizeOf rest) hrest).2 jn rest le_rfl hsplit.2
                (consolidate_family_tree env child reg).2.2 h1.2.1
              rw [consolidate_children_cons_joe env jn nm child rest reg hjn]
              refine ⟨h1.1.trans h2.1, h2.2.1, ?_, ?_⟩
              · intro p hp hpjn c hpc
                rcases List.mem_cons.mp hp with rfl | hp'
                · simp only at hpc
                  cases hpc
                  exact h2.1.subset h1.2.2.1
                · exact h2.2.2.1 p hp' hpjn c hpc
              · have hq1 : wfObj (consolidate_family_tree env child reg).1
                    = true :=
                  h1.2.1.1 _ h1.2.2.1
                simp [wfFields, wfVal, hq1, h2.2.2.2]
            · have hjn' : jn.contains nm = false := by simpa using hjn
              have hrest : sizeOf rest < n := by simp at hsz; omega
              have h2 := (IH (sizeOf rest) hrest).2 jn rest le_rfl hsplit.2
                reg hgood
              rw [consolidate_children_cons_skip env jn nm _ rest reg hjn']
              refine ⟨h2.1, h2.2.1, ?_, ?_⟩
              · intro p hp hpjn c hpc
                rcases List.mem_cons.mp hp with rfl | hp'
                · simp only at hpjn
                  rw [hjn'] at hpjn
                  cases hpjn
                · exact h2.2.2.1 p hp' hpjn c hpc
              · simp [wfFields, hsplit.1, h2.2.2.2]
          · push_neg at hjoe
            have hrest : sizeOf rest < n := by simp at hsz; omega
            have h2 := (IH (sizeOf rest) hrest).2 jn rest le_rfl hsplit.2
              reg hgood
            rw [consolidate_children_cons_of_not_joe env jn nm v rest reg
              (fun c => hjoe c)]
            refine ⟨h2.1, h2.2.1, ?_, ?_⟩
            · intro p hp hpjn c hpc
              rcases List.mem_cons.mp hp with rfl | hp'
              · exact absurd hpc (hjoe c)
              · exact h2.2.2.1 p hp' hpjn c hpc
            · simp [wfFields, hsplit.1, h2.2.2.2]

/-- **C1** (amended): restricted to positions reachable through *bare
record-typed declared fields* — the only positions `joe_children` visits —
the dedup invariant does hold, measured with the operative equality (the
dataclass-generated `__eq__`, `pyObjEq`).  Starting from a well-formed
registry and a constructible instance: consolidation grows the registry
by appending only and keeps it well-formed, and in the mutated `self` it
leaves behind, every record instance occupying a nested record-typed
position is itself the first structurally-matching member of the
canonical registry in insertion order, and any two mutually
structurally-equal occupants of such positions are the identical
instance. -/
theorem C1_dedup_through_record_fields (env : Env) (o : JoeObj)
    (reg : List JoeObj) (hgood : RegGood env reg)
    (hwf : wfObj o = true) :
    reg <+: (consolidate_family_tree env o reg).2.2 ∧
    RegGood env (consolidate_family_tree env o reg).2.2 ∧
    (∀ j, OccursNested env j (consolidate_family_tree env o reg).2.1 →
      (consolidate_family_tree env o reg).2.2.find?
        (fun e => pyObjEq j e) = some j) ∧
    (∀ j1 j2, OccursNested env j1 (consolidate_family_tree env o reg).2.1 →
      OccursNested env j2 (consolidate_family_tree env o reg).2.1 →
      pyObjEq j1 j2 = true → pyObjEq j2 j1 = true → j1 = j2) := by
  have h := (cft_main env (sizeOf o)).1 o le_rfl hwf reg hgood
  have hmem : ∀ j,
      OccursNested env j (consolidate_family_tree env o reg).2.1 →
      j ∈ (consolidate_family_tree env o reg).2.2 := by
    rintro j ⟨c, hc, hocc⟩
    exact occurs_mem_of_regGood env _ h.2.1 j c hocc (h.2.2.2.2.1 c hc)
  refine ⟨h.1, h.2.1, ?_, ?_⟩
  · intro j hj
    have hjm := hmem j hj
    exact find_first_self j _ h.2.1.2.1 hjm
      (pyObjEq_refl j (h.2.1.1 j hjm))
  · intro j1 j2 o1 o2 e12 e21
    exact regGood_eq_both env _ h.2.1 (hmem j1 o1) (hmem j2 o2) e12 e21

/-- A consolidated-form `Company` instance (as an earlier construction
would have registered it). -/
def companyObjA : JoeObj :=
  JoeObj.mk 0 "Company"
    [("id", .str "c1"),
     ("creation_date", .datetime "2024-04-04T20:49:02"),
     ("update_date", .datetime "2024-04-04T20:49:02"),
     ("name", .str "ACME")]

/-- A raw (not yet consolidated) `Mission` instance holding a `Company`
instance in its record-typed `created_by` field. -/
def missionRawA : JoeObj :=
  JoeObj.mk 7 "Mission"
    [("id", .str "m1"),
     ("creation_date", .datetime "2024-04-04T20:49:02"),
     ("update_date", .datetime "2024-04-04T20:49:02"),
     ("created_by", .joe companyObjA),
     ("name", .str "Alpha"),
     ("launch_date", .datetime "2024-04-04T20:49:02"),
     ("amd_enabled", .bool true)]

theorem C1_dedup_witness :
    (RegGood demoEnv [] ∧ wfObj missionRawA = true) ∧
    (([] : List JoeObj) <+:
      (consolidate_family_tree demoEnv missionRawA []).2.2 ∧
     RegGood demoEnv (consolidate_family_tree demoEnv missionRawA []).2.2 ∧
     (∀ j, OccursNested demoEnv j
         (consolidate_family_tree demoEnv missionRawA []).2.1 →
       (consolidate_family_tree demoEnv missionRawA []).2.2.find?
         (fun e => pyObjEq j e) = some j) ∧
     (∀ j1 j2, OccursNested demoEnv j1
         (consolidate_family_tree demoEnv missionRawA []).2.1 →
       OccursNested demoEnv j2
         (consolidate_family_tree demoEnv missionRawA []).2.1 →
       pyObjEq j1 j2 = true → pyObjEq j2 j1 = true → j1 = j2)) :=
  ⟨⟨⟨by simp, List.Pairwise.nil, by simp⟩, by decide⟩,
   C1_dedup_through_record_fields demoEnv missionRawA []
     ⟨by simp, List.Pairwise.nil, by simp⟩ (by decide)⟩

/-- **C10**: the consolidation registry is one shared, persistent list —
in the embedding the registry component of the threaded state, which
`construct` passes on unchanged between top-level calls.  Starting from
the well-formed registry any earlier construction left behind, with the
operative dataclass-generated `==` deciding the scan: (1) every earlier
instance survives consolidation as a candidate (the registry only grows
by appending); (2) a record-typed field occupant of the newly
consolidated object that is mutually `==`-equal to an earlier call's
member *is* that earlier member; and (3) if the newly built object's
scan matches an earlier member, the earlier member is returned in its
place (`==`-equal to the fresh object, but drawn from the earlier
call). -/
theorem C10_shared_registry_reuses_earlier_instances (env : Env)
    (o : JoeObj) (reg : List JoeObj) (hgood : RegGood env reg)
    (hwf : wfObj o = true) :
    reg <+: (consolidate_family_tree env o reg).2.2 ∧
    (∀ c ∈ joeChildVals env (consolidate_family_tree env o reg).2.1,
       ∀ m ∈ reg, pyObjEq c m = true → pyObjEq m c = true → c = m) ∧
    (∀ m ∈ reg,
       pyObjEq (consolidate_family_tree env o reg).2.1 m = true →
       (consolidate_family_tree env o reg).1 ∈ reg ∧
       pyObjEq (consolidate_family_tree env o reg).2.1
         (consolidate_family_tree env o reg).1 = true) := by
  have h := (cft_main env (sizeOf o)).1 o le_rfl hwf reg hgood
  refine ⟨h.1, ?_, ?_⟩
  · intro c hc m hm e1 e2
    exact regGood_eq_both env _ h.2.1 (h.2.2.2.2.1 c hc) (h.1.subset hm)
      e1 e2
  · obtain ⟨pid, cl, fs⟩ := o
    obtain ⟨t, ht⟩ := ((cft_main env (sizeOf fs)).2 (joeFieldNames env cl)
      fs le_rfl hwf reg hgood).1
    intro m hm heq
    have hself : (consolidate_family_tree env (JoeObj.mk pid cl fs)
        reg).2.1 = JoeObj.mk pid cl
          (consolidate_children env (joeFieldNames env cl) fs reg).1 := by
      simp only [consolidate_family_tree]
      cases hfind : (consolidate_children env (joeFieldNames env cl) fs
          reg).2.find? (fun e => pyObjEq (JoeObj.mk pid cl
            (consolidate_children env (joeFieldNames env cl) fs reg).1)
            e) <;> simp [hfind]
    rw [hself] at heq
    have hy : ∃ y, reg.find? (fun e => pyObjEq (JoeObj.mk pid cl
        (consolidate_children env (joeFieldNames env cl) fs reg).1) e)
        = some y := by
      rw [← Option.isSome_iff_exists]
      exact List.find?_isSome.mpr ⟨m, hm, heq⟩
    obtain ⟨y, hy⟩ := hy
    have hfull : (consolidate_children env (joeFieldNames env cl) fs
        reg).2.find? (fun e => pyObjEq (JoeObj.mk pid cl
          (consolidate_children env (joeFieldNames env cl) fs reg).1) e)
        = some y := by
      rw [← ht, List.find?_append, hy]; rfl
    simp only [consolidate_family_tree, hfull]
    exact ⟨List.mem_of_find?_eq_some hy, List.find?_some hfull⟩

instance (env : Env) (reg : List JoeObj) : Decidable (RegGood env reg) := by
  unfold RegGood; infer_instance

/-- A `Company` payload as a nested mapping, for constructing a `Mission`. -/
def companyDictKw : PyVal :=
  .dict [(.str "id", .str "c1"),
         (.str "creation_date", .str "2024-04-04T20:49:02"),
         (.str "update_date", .str "2024-04-04T20:49:02"),
         (.str "name", .str "ACME")]

/-- Keywords for a first, top-level `Mission` construction. -/
def missionKw1 : List (String × PyVal) :=
  [("id", .str "m1"),
   ("creation_date", .str "2024-04-04T20:49:02"),
   ("update_date", .str "2024-04-04T20:49:02"),
   ("created_by", companyDictKw),
   ("name", .str "Alpha"),
   ("launch_date", .str "2024-04-04T20:49:02"),
   ("amd_enabled", .bool true)]

/-- The shared registry as the first `Mission` construction leaves it. -/
def regAfterFirst : List JoeObj :=
  (construct demoEnv 100 missionDecl missionKw1 st0).2.registry

/-- The `Company` instance the first construction registered (identity 1:
the `Mission` itself took identity 0). -/
def companyObjB : JoeObj :=
  JoeObj.mk 1 "Company"
    [("id", .str "c1"),
     ("creation_date", .datetime "2024-04-04T20:49:02"),
     ("update_date", .datetime "2024-04-04T20:49:02"),
     ("name", .str "ACME")]

/-- A structurally identical `Company` built afresh (identity 5) by a
later, independent top-level construction. -/
def companyRaw5 : JoeObj :=
  JoeObj.mk 5 "Company"
    [("id", .str "c1"),
     ("creation_date", .datetime "2024-04-04T20:49:02"),
     ("update_date", .datetime "2024-04-04T20:49:02"),
     ("name", .str "ACME")]

set_option maxRecDepth 400000 in
theorem C10_witness :
    (RegGood demoEnv regAfterFirst ∧ wfObj companyRaw5 = true) ∧
    companyObjB ∈ regAfterFirst ∧
    pyObjEq (consolidate_family_tree demoEnv companyRaw5 regAfterFirst).2.1
      companyObjB = true ∧
    (consolidate_family_tree demoEnv companyRaw5 regAfterFirst).1
      ∈ regAfterFirst ∧
    pyObjEq (consolidate_family_tree demoEnv companyRaw5 regAfterFirst).2.1
      (consolidate_family_tree demoEnv companyRaw5 regAfterFirst).1
      = true :=
  ⟨⟨by decide, by decide⟩, by decide, by decide,
   (C10_shared_registry_reuses_earlier_instances demoEnv companyRaw5
      regAfterFirst (by decide) (by decide)).2.2 companyObjB (by decide)
      (by decide)⟩

/-! ## C2 — round trip (amended, general) -/

/-- Claim-side (amended): the field annotations for which the round trip
is claimed — primitives, timestamps, text-valued enumerations and bare
record references.  `list`/`dict`/`tuple`-shaped annotations are excluded:
the serializer double-encodes them into JSON *text*, which the decoder
then rejects (the C2 counterexample). -/
def roundTy : PyType → Bool
  | PyType.bool => true
  | PyType.int => true
  | PyType.float => true
  | PyType.str => true
  | PyType.datetime => true
  | PyType.enum _ _ => true
  | PyType.joeClass _ => true
  | _ => false

/-- Claim-side (amended): the value is an already-typed inhabitant of the
annotation — an enum member carries its own class name and one of the
class's declared values; a record slot holds either an instance with a
textual `id` or already just the id text. -/
def roundOk : PyType → PyVal → Bool
  | PyType.bool, PyVal.bool _ => true
  | PyType.int, PyVal.int _ => true
  | PyType.float, PyVal.float _ => true
  | PyType.str, PyVal.str _ => true
  | PyType.datetime, PyVal.datetime _ => true
  | PyType.enum e vals, PyVal.enumMember e2 v => e2 == e && vals.contains v
  | PyType.joeClass _, PyVal.joe child =>
      (match joeIdVal child with
       | PyVal.str _ => true
       | _ => false)
  | PyType.joeClass _, PyVal.str _ => true
  | _, _ => false

/-- The value a round-trippable field holds after decode ∘ encode: a
nested record collapses to its id text (line 410 on the way out, the
opaque-id passthrough of line 172 on the way in); everything else
survives unchanged. -/
def reval : PyVal → PyVal
  | PyVal.joe child => joeIdVal child
  | v => v

theorem decompose_type_round {t : PyType} (h : roundTy t = true) :
    decompose_type t = (Option.none, [t]) := by
  cases t <;> simp_all [roundTy, decompose_type]

/-- One field of a round-trippable shape decodes from its serialized form
to `reval` of the original — structurally the same serialized text — with
the construction state untouched. -/
theorem dsv_round (env : Env) (fuel : Nat) (vn : String) (t : PyType)
    (v : PyVal) (st : ConsState) (h : roundOk t v = true) :
    deserialize_simple_var env (fuel + 1) vn (serializeField v) [t] st
      = (Except.ok (reval v), st) ∧
    serializeField (reval v) = serializeField v := by
  cases t <;> cases v <;> simp only [roundOk] at h <;>
    try exact Bool.noConfusion h
  case bool.bool b =>
      exact ⟨by simp [serializeField, deserialize_simple_var, hasBool,
        PyType.isBool, reval], rfl⟩
  case int.int n =>
      exact ⟨by simp [serializeField, deserialize_simple_var, hasInt,
        PyType.isInt, reval], rfl⟩
  case float.float q =>
      exact ⟨by simp [serializeField, deserialize_simple_var, hasFloat,
        PyType.isFloat, reval], rfl⟩
  case str.str s =>
      exact ⟨by simp [serializeField, deserialize_simple_var, hasStr,
        PyType.isStr, reval], rfl⟩
  case datetime.datetime s =>
      exact ⟨by simp [serializeField, deserialize_simple_var, hasStr,
        PyType.isStr, hasDatetime, PyType.isDatetime, reval], rfl⟩
  case enum.enumMember e vals e2 val =>
      rw [Bool.and_eq_true, beq_iff_eq] at h
      obtain ⟨rfl, hvmem⟩ := h
      have hvm := (contains_iff_mem _ _).mp hvmem
      exact ⟨by simp [serializeField, deserialize_simple_var, hasStr,
        PyType.isStr, hvmem, hvm, reval], rfl⟩
  case joeClass.str cname s =>
      exact ⟨by simp [serializeField, deserialize_simple_var, hasStr,
        PyType.isStr, reval], rfl⟩
  case joeClass.joe cname child =>
      cases hid : joeIdVal child with
      | str s =>
          refine ⟨?_, ?_⟩
          · have hsf : serializeField (PyVal.joe child) = PyVal.str s := by
              simp [serializeField, hid]
            rw [hsf]
            simp [deserialize_simple_var, hasStr, PyType.isStr, reval, hid]
          · simp [reval, hid, serializeField]
      | none => rw [hid] at h; simp at h
      | bool b => rw [hid] at h; simp at h
      | int n => rw [hid] at h; simp at h
      | float q => rw [hid] at h; simp at h
      | list xs => rw [hid] at h; simp at h
      | tuple xs => rw [hid] at h; simp at h
      | dict kvs => rw [hid] at h; simp at h
      | datetime s => rw [hid] at h; simp at h
      | enumMember e2 v2 => rw [hid] at h; simp at h
      | joe o2 => rw [hid] at h; simp at h

/-- Claim-side (amended): the declared fields and the instance's field
slots line up name-for-name in declaration order, every annotation is
round-trippable, and every value inhabits its annotation. -/
def roundFieldsOk : List JoeField → List (String × PyVal) → Bool
  | [], [] => true
  | f :: fr, p :: pr =>
      f.name == p.1 && roundTy f.ty && roundOk f.ty p.2 &&
        roundFieldsOk fr pr
  | _, _ => false

theorem roundFieldsOk_names : ∀ (flds : List JoeField)
    (fs : List (String × PyVal)), roundFieldsOk flds fs = true →
    flds.map JoeField.name = fs.map Prod.fst := by
  intro flds
  induction flds with
  | nil =>
      intro fs h
      cases fs with
      | nil => rfl
      | cons p pr => simp [roundFieldsOk] at h
  | cons f fr ih =>
      intro fs h
      cases fs with
      | nil => simp [roundFieldsOk] at h
      | cons p pr =>
          simp only [roundFieldsOk, Bool.and_eq_true, beq_iff_eq] at h
          obtain ⟨⟨⟨hname, _⟩, _⟩, hrest⟩ := h
          simp [hname, ih pr hrest]

theorem lookupKw_append (l1 l2 : List (String × PyVal)) (n : String) :
    lookupKw (l1 ++ l2) n =
      (lookupKw l1 n).orElse (fun _ => lookupKw l2 n) := by
  simp only [lookupKw, List.find?_append]
  cases List.find? (fun p => p.1 == n) l1 <;> rfl

/-- Dataclass binding of the serialized field map: with distinct declared
names matching the instance's slots in order, each field binds the
serialized value of its slot. -/
theorem bind_fields_round : ∀ (flds : List JoeField)
    (fs : List (String × PyVal)),
    roundFieldsOk flds fs = true →
    (flds.map JoeField.name).Nodup →
    ∀ (pre : List (String × PyVal)),
      (∀ f ∈ flds, lookupKw pre f.name = Option.none) →
      bind_fields flds
          (pre ++ fs.map (fun p => (p.1, serializeField p.2)))
        = some (fs.map (fun p => serializeField p.2)) := by
  intro flds
  induction flds with
  | nil =>
      intro fs h _ pre _
      cases fs with
      | nil => rfl
      | cons p pr => simp [roundFieldsOk] at h
  | cons f fr ih =>
      intro fs h hnd pre hpre
      cases fs with
      | nil => simp [roundFieldsOk] at h
      | cons p pr =>
          obtain ⟨pn, pv⟩ := p
          simp only [roundFieldsOk, Bool.and_eq_true, beq_iff_eq] at h
          obtain ⟨⟨⟨hname, _⟩, _⟩, hrest⟩ := h
          have hlk : lookupKw (pre ++ (pn, serializeField pv) ::
              pr.map (fun q => (q.1, serializeField q.2))) f.name
              = some (serializeField pv) := by
            rw [lookupKw_append, hpre f (List.mem_cons_self _ _)]
            simp [lookupKw, List.find?_cons, hname]
          simp only [List.map_cons, bind_fields, hlk, Option.orElse]
          have htail : bind_fields fr
              ((pre ++ [(pn, serializeField pv)]) ++
                pr.map (fun q => (q.1, serializeField q.2)))
              = some (pr.map (fun q => serializeField q.2)) := by
            refine ih pr hrest (List.Nodup.of_cons hnd) _ ?_
            intro g hg
            rw [lookupKw_append, hpre g (List.mem_cons_of_mem _ hg)]
            have hne : f.name ≠ g.name := by
              intro hc
              exact (List.nodup_cons.mp hnd).1
                (hc ▸ List.mem_map_of_mem JoeField.name hg)
            simp [lookupKw, Option.orElse, hname ▸ hne]
          rw [List.append_assoc] at htail
          simp only [List.cons_append, List.nil_append] at htail
          rw [htail]
          rfl

/-- Every key of the serialized field map names a declared field, so
`cls(**kwargs)` accepts the keyword set. -/
theorem kwargs_all_declared (flds : List JoeField)
    (fs : List (String × PyVal)) (h : roundFieldsOk flds fs = true) :
    (fs.map (fun p => (p.1, serializeField p.2))).all
      (fun p => flds.any (fun f => f.name == p.1)) = true := by
  rw [List.all_eq_true]
  intro p hp
  rw [List.mem_map] at hp
  obtain ⟨q, hq, rfl⟩ := hp
  rw [List.any_eq_true]
  have hmem : q.1 ∈ flds.map JoeField.name := by
    rw [roundFieldsOk_names flds fs h]
    exact List.mem_map_of_mem Prod.fst hq
  rw [List.mem_map] at hmem
  obtain ⟨f, hf, hfe⟩ := hmem
  exact ⟨f, hf, by simp [hfe]⟩

/-- Field-by-field coercion of the serialized field map: every field
comes back as `reval` of the original slot value, the state untouched. -/
theorem coerce_fields_round (env : Env) : ∀ (flds : List JoeField)
    (fs : List (String × PyVal)) (fuel : Nat) (st : ConsState),
    roundFieldsOk flds fs = true →
    flds.length + 2 ≤ fuel →
    coerce_fields env fuel flds (fs.map (fun p => serializeField p.2)) st
      = (Except.ok (fs.map (fun p => (p.1, reval p.2))), st) := by
  intro flds
  induction flds with
  | nil =>
      intro fs fuel st h hfuel
      obtain ⟨k, rfl⟩ : ∃ k, fuel = k + 1 := ⟨fuel - 1, by omega⟩
      cases fs with
      | nil => rfl
      | cons p pr => simp [roundFieldsOk] at h
  | cons f fr ih =>
      intro fs fuel st h hfuel
      obtain ⟨j, rfl⟩ : ∃ j, fuel = j + 2 + 1 := ⟨fuel - 3, by
        simp only [List.length_cons] at hfuel; omega⟩
      cases fs with
      | nil => simp [roundFieldsOk] at h
      | cons p pr =>
          simp only [roundFieldsOk, Bool.and_eq_true, beq_iff_eq] at h
          obtain ⟨⟨⟨hname, hty⟩, hok⟩, hrest⟩ := h
          have hd := dsv_round env j p.1 f.ty p.2 st hok
          have hdv : deserialize_var env (j + 2) p.1
              (serializeField p.2) Option.none [f.ty] st
              = (Except.ok (reval p.2), st) := hd.1
          have hrec : coerce_fields env (j + 2) fr
              (pr.map (fun q => serializeField q.2)) st
              = (Except.ok (pr.map (fun q => (q.1, reval q.2))), st) :=
            ih pr (j + 2) st hrest (by
              simp only [List.length_cons] at hfuel; omega)
          simp only [List.map_cons]
          conv_lhs => unfold coerce_fields
          rw [decompose_type_round hty]
          simp only [hdv, hrec, hname]

theorem reval_not_joe {t : PyType} {v : PyVal} (h : roundOk t v = true) :
    ∀ c : JoeObj, reval v ≠ PyVal.joe c := by
  cases t <;> cases v <;> simp only [roundOk] at h <;>
    try exact Bool.noConfusion h
  case bool.bool b => simp [reval]
  case int.int n => simp [reval]
  case float.float q => simp [reval]
  case str.str s => simp [reval]
  case datetime.datetime s => simp [reval]
  case enum.enumMember e vals e2 val => simp [reval]
  case joeClass.str cname s => simp [reval]
  case joeClass.joe cname child =>
      cases hid : joeIdVal child with
      | str s => simp [reval, hid]
      | none => rw [hid] at h; simp at h
      | bool b => rw [hid] at h; simp at h
      | int n => rw [hid] at h; simp at h
      | float q => rw [hid] at h; simp at h
      | list xs => rw [hid] at h; simp at h
      | tuple xs => rw [hid] at h; simp at h
      | dict kvs => rw [hid] at h; simp at h
      | datetime s => rw [hid] at h; simp at h
      | enumMember e2 v2 => rw [hid] at h; simp at h
      | joe o2 => rw [hid] at h; simp at h

theorem mapped_reval_not_joe : ∀ (flds : List JoeField)
    (fs : List (String × PyVal)), roundFieldsOk flds fs = true →
    ∀ p ∈ fs.map (fun q => (q.1, reval q.2)), ∀ c : JoeObj,
      p.2 ≠ PyVal.joe c := by
  intro flds
  induction flds with
  | nil =>
      intro fs h
      cases fs with
      | nil => simp
      | cons p pr => simp [roundFieldsOk] at h
  | cons f fr ih =>
      intro fs h
      cases fs with
      | nil => simp [roundFieldsOk] at h
      | cons p pr =>
          simp only [roundFieldsOk, Bool.and_eq_true, beq_iff_eq] at h
          obtain ⟨⟨⟨_, _⟩, hok⟩, hrest⟩ := h
          intro q hq c
          rcases List.mem_cons.mp hq with rfl | hq'
          · exact reval_not_joe hok c
          · exact ih pr hrest q hq' c


/-- A field list with no record-instance values passes through the child
consolidation untouched, the registry as well. -/
theorem consolidate_children_no_joe (env : Env) (jn : List String) :
    ∀ (fs : List (String × PyVal)) (reg : List JoeObj),
      (∀ p ∈ fs, ∀ c : JoeObj, p.2 ≠ PyVal.joe c) →
      consolidate_children env jn fs reg = (fs, reg) := by
  intro fs
  induction fs with
  | nil => intro reg _; rfl
  | cons q rest ih =>
      intro reg hnj
      obtain ⟨nm, v⟩ := q
      rw [consolidate_children_cons_of_not_joe env jn nm v rest reg
          (fun c => hnj (nm, v) (List.mem_cons_self _ _) c),
        ih reg (fun p hp => hnj p (List.mem_cons_of_mem _ hp))]

/-- Re-serializing the decoded field slots reproduces the original
serialized field map. -/
theorem map_ser_reval : ∀ (flds : List JoeField)
    (fs : List (String × PyVal)), roundFieldsOk flds fs = true →
    (fs.map (fun p => (p.1, reval p.2))).map
        (fun p => (p.1, serializeField p.2))
      = fs.map (fun p => (p.1, serializeField p.2)) := by
  intro flds
  induction flds with
  | nil =>
      intro fs h
      cases fs with
      | nil => rfl
      | cons p pr => simp [roundFieldsOk] at h
  | cons f fr ih =>
      intro fs h
      cases fs with
      | nil => simp [roundFieldsOk] at h
      | cons p pr =>
          simp only [roundFieldsOk, Bool.and_eq_true, beq_iff_eq] at h
          obtain ⟨⟨⟨_, _⟩, hok⟩, hrest⟩ := h
          simp only [List.map_cons, ih pr hrest]
          rw [(dsv_round [] 0 "" f.ty p.2 ⟨[], 0⟩ hok).2]

/-- **C2** (amended): for every record instance whose field annotations
are all round-trippable shapes — primitives, timestamps, text-valued
enumerations and bare record references; the list and mapping shapes of
the original claim are excluded, being refuted by the counterexample —
with distinct declared field names and a record type whose invariant
checks accept every instance, decoding the encoded form succeeds and
yields an instance structurally equal to the original under the equality
oracle `__eq__`. -/
theorem C2_round_trip_flat (env : Env) (cls : JoeClassDecl) (o : JoeObj)
    (st : ConsState) (fuel : Nat)
    (hcls : o.cls = cls.name)
    (hfs : roundFieldsOk cls.fields o.fields = true)
    (hnodup : (cls.fields.map JoeField.name).Nodup)
    (hval : ∀ j : JoeObj, validate cls j = Except.ok ())
    (hfuel : cls.fields.length + 3 ≤ fuel) :
    ∃ o2 : JoeObj,
      (decode_encode env fuel cls o st).1 = Except.ok o2 ∧
      joe_eq o2 o = true := by
  obtain ⟨m, rfl⟩ : ∃ m, fuel = m + 1 := ⟨fuel - 1, by omega⟩
  have hguard : (o.fields.map (fun p => (p.1, serializeField p.2))).all
      (fun p => cls.fields.any (fun f => f.name == p.1)) = true :=
    kwargs_all_declared cls.fields o.fields hfs
  have hbind : bind_fields cls.fields
      (o.fields.map (fun p => (p.1, serializeField p.2)))
      = some (o.fields.map (fun p => serializeField p.2)) := by
    have hb := bind_fields_round cls.fields o.fields hfs hnodup []
      (fun f _ => rfl)
    simpa using hb
  have hco : coerce_fields env m cls.fields
      (o.fields.map (fun p => serializeField p.2))
      (⟨st.registry, st.nextId + 1⟩ : ConsState)
      = (Except.ok (o.fields.map (fun p => (p.1, reval p.2))),
         (⟨st.registry, st.nextId + 1⟩ : ConsState)) :=
    coerce_fields_round env cls.fields o.fields m _ hfs (by omega)
  have hcc : consolidate_children env (joeFieldNames env cls.name)
      (o.fields.map (fun p => (p.1, reval p.2))) st.registry
      = (o.fields.map (fun p => (p.1, reval p.2)), st.registry) :=
    consolidate_children_no_joe env _ _ _
      (mapped_reval_not_joe cls.fields o.fields hfs)
  have hcft2 : (consolidate_family_tree env
      (JoeObj.mk st.nextId cls.name
        (o.fields.map (fun p => (p.1, reval p.2)))) st.registry).2.1
      = JoeObj.mk st.nextId cls.name
          (o.fields.map (fun p => (p.1, reval p.2))) := by
    conv_lhs => unfold consolidate_family_tree
    rw [hcc]
    dsimp only
    cases hfind : st.registry.find? (fun e => pyObjEq (JoeObj.mk st.nextId
        cls.name (o.fields.map (fun p => (p.1, reval p.2)))) e) with
    | some e => simp [hfind]
    | none => simp [hfind]
  have hrun : (decode_encode env (m + 1) cls o st).1
      = Except.ok (JoeObj.mk st.nextId cls.name
          (o.fields.map (fun p => (p.1, reval p.2)))) := by
    show (construct env (m + 1) cls
      (o.fields.map (fun p => (p.1, serializeField p.2))) st).1 = _
    conv_lhs => unfold construct
    rw [if_pos hguard]
    simp only [hbind, hco, hval]
    rw [hcft2]
  refine ⟨_, hrun, ?_⟩
  have h1 : to_json_fields (JoeObj.mk st.nextId cls.name
      (o.fields.map (fun p => (p.1, reval p.2)))) = to_json_fields o := by
    show (o.fields.map (fun p => (p.1, reval p.2))).map
        (fun p => (p.1, serializeField p.2))
      = o.fields.map (fun p => (p.1, serializeField p.2))
    exact map_ser_reval cls.fields o.fields hfs
  have h2 : to_json (JoeObj.mk st.nextId cls.name
      (o.fields.map (fun p => (p.1, reval p.2)))) = to_json o := by
    unfold to_json
    rw [h1]
  simp [joe_eq, h2, hcls]

/-- A `Mission` instance exercising every round-trippable shape the
amended claim covers: text, three timestamps, a nested record reference
and a Boolean. -/
def missionRawB : JoeObj :=
  JoeObj.mk 3 "Mission"
    [("id", .str "m2"),
     ("creation_date", .datetime "2024-04-04T20:49:02"),
     ("update_date", .datetime "2024-04-04T20:49:02"),
     ("created_by", .joe companyObjA),
     ("name", .str "Beta"),
     ("launch_date", .datetime "2024-05-05T08:00:00"),
     ("amd_enabled", .bool false)]

theorem C2_round_trip_witness :
    (missionRawB.cls = missionDecl.name ∧
     roundFieldsOk missionDecl.fields missionRawB.fields = true ∧
     (missionDecl.fields.map JoeField.name).Nodup ∧
     missionDecl.fields.length + 3 ≤ 100) ∧
    ∃ o2 : JoeObj,
      (decode_encode demoEnv 100 missionDecl missionRawB st0).1
        = Except.ok o2 ∧
      joe_eq o2 missionRawB = true :=
  ⟨⟨rfl, by decide, by decide, by decide⟩,
   C2_round_trip_flat demoEnv missionDecl missionRawB st0 100 rfl
     (by decide) (by decide) (fun j => rfl) (by decide)⟩
